import Mathlib

/-!
# Verification of the mogo operator-desugaring passes

A shallow embedding of the operator-overloading demo `cmd/mogo`:

* the syntax-tree model and the generic traversal engine `Apply` with its
  locator-addressed mutation primitive `SetField` (go/ast `apply.go`, shipped
  here inside `point.go`'s listing);
* the operator-name normalizer pre-pass (mogo.go:39-60);
* the type-directed fixed-point desugaring loop (mogo.go:63-100) with its
  rewrite helper (mogo.go:120-127) and operator table (mogo.go:129-137);
* the output/exit pass-through tail of `main` (mogo.go:102-111).

Modelling conventions:

* Go's nilable `ast.Node` interface is a `Node` with a dedicated `nil`
  constructor; slots that hold nil in every run (e.g. `Doc` comment slots —
  the file is parsed with mode 0, so comments are never attached) are omitted.
* In this repository's modified go/ast, `IndexExpr.Index` is a slice
  (mogo.go:77 appends to it, matrix.go indexes with `a[i, j]`), so the model
  gives `IndexExpr` a list of index expressions and the traversal walks it
  like the other expression lists.
* A visitor callback's only mutation in the desugaring sweep is
  `ast.SetField(parent, name, index, new)` at the node's own locator; a
  callback therefore returns an optional replacement (`setf`).  Matching Go,
  a replacement committed by `pre` detaches the old node: the old children
  are still walked (their state effects are kept) but rewrites committed
  inside the detached subtree do not reach the committed tree.
* The abort signal (`post` returning false) is Go's `panic(abort)`: it
  unwinds immediately and only `Apply`'s deferred recover catches it; any
  other callback fault is re-raised.
* The external go/types checker is out of scope for the repository (spec §1,
  §6) and enters only through the narrow query interface `Resolver`
  (a `TypeBinding` map plus the `LookupFieldOrMethod` verdict).
-/

mutual
/-- The syntax-tree variant set: the closed set of node kinds exercised by
this repository, one constructor per go/ast kind, child slots in the order of
the struct declarations (which is also the traversal order of `apply`).
`nil` is the nil `ast.Node`. -/
inductive Node where
  | nil
  | Ident (Name : String)
  | BasicLit (Value : String)
  | ParenExpr (X : Node)
  | SelectorExpr (X : Node) (Sel : Node)
  | IndexExpr (X : Node) (Index : NodeList)
  | CallExpr (Fun : Node) (Args : NodeList)
  | BinaryExpr (X : Node) (Op : String) (Y : Node)
  | CompositeLit (Ty : Node) (Elts : NodeList)
  | Field (Names : NodeList) (Ty : Node)
  | FieldList (MList : NodeList)
  | StructType (Fields : Node)
  | FuncType (Params : Node) (Results : Node)
  | InterfaceType (Methods : Node)
  | ExprStmt (X : Node)
  | AssignStmt (Lhs : NodeList) (Rhs : NodeList)
  | BlockStmt (SList : NodeList)
  | ReturnStmt (Results : NodeList)
  | GenDecl (Specs : NodeList)
  | TypeSpec (Name : Node) (Ty : Node)
  | FuncDecl (Recv : Node) (Name : Node) (Ty : Node) (Body : Node)
  | File (Name : Node) (Decls : NodeList)
  deriving DecidableEq
/-- A slice-valued child slot (`[]ast.Expr`, `[]ast.Stmt`, ...). -/
inductive NodeList where
  | nil
  | cons (hd : Node) (tl : NodeList)
  deriving DecidableEq
end

/-- `len` of a slice slot. -/
def NodeList.length : NodeList → Nat
  | .nil => 0
  | .cons _ tl => 1 + tl.length

/-- `append` on slice slots (mogo.go:77 builds `append(lhs.Index, n.Rhs[0])`). -/
def NodeList.append : NodeList → NodeList → NodeList
  | .nil, ys => ys
  | .cons x xs, ys => .cons x (xs.append ys)

/-- The operator table `methName` (mogo.go:129-137): operator symbol to
canonical method identifier; `none` for a symbol that is not a key. -/
def methName : String → Option String
  | "+" => some "ADD__"
  | "-" => some "SUB__"
  | "*" => some "MUL__"
  | "/" => some "QUO__"
  | "%" => some "REM__"
  | "[]" => some "AT__"
  | "[]=" => some "ATSET__"
  | _ => none

/-- The result of one visitor callback (`ApplyFunc`): the updated closure
state, the boolean the callback returns, and the optional node it committed
via `ast.SetField(parent, name, index, ·)` at its own locator.  `fault`
models the callback panicking with something other than the abort signal. -/
inductive CbRes (σ : Type) where
  | out (s : σ) (cont : Bool) (setf : Option Node)
  | fault (msg : String)
  deriving DecidableEq

/-- `ApplyFunc(parent Node, name string, index int, n Node) bool`, with the
closure state threaded explicitly. -/
def Cb (σ : Type) : Type := σ → Node → String → Int → Node → CbRes σ

/-- Result of `application.apply` on one subtree: normal return, unwinding on
`panic(abort)` (carrying the value committed at the locator so far), or
unwinding on any other panic. -/
inductive Res (σ : Type) where
  | ok (s : σ) (val : Node)
  | abort (s : σ) (val : Node)
  | fault (msg : String)
  deriving DecidableEq

/-- Result of walking one slice slot. -/
inductive ResL (σ : Type) where
  | ok (s : σ) (val : NodeList)
  | abort (s : σ) (val : NodeList)
  | fault (msg : String)
  deriving DecidableEq

/-- A possibly-nil `ApplyFunc` (Apply accepts `pre`/`post` equal to nil). -/
def callCb {σ : Type} (cb : Option (Cb σ)) (s : σ) (parent : Node)
    (name : String) (index : Int) (n : Node) : CbRes σ :=
  match cb with
  | none => .out s true none
  | some f => f s parent name index n

/-- The node standing at a locator after an optional `SetField` there: the
replacement if one was committed, the in-place value otherwise. -/
def orSet (setf : Option Node) (v : Node) : Node :=
  match setf with
  | some m => m
  | none => v

/-- The tail of `application.apply` (point.go:372-374): after the children
are walked, call `post`; returning false raises the abort panic.  `v` is the
node with its walked children, `setf` an earlier replacement committed by
`pre` (which then wins over the detached, rebuilt `v`). -/
def applyPost {σ : Type} (post : Option (Cb σ)) (s : σ) (parent : Node)
    (name : String) (index : Int) (setf : Option Node) (v : Node) : Res σ :=
  match callCb post s parent name index v with
  | .fault e => .fault e
  | .out s1 contP setfP =>
    if contP then .ok s1 (orSet setfP (orSet setf v))
    else .abort s1 (orSet setfP (orSet setf v))

mutual
/-- `application.apply(parent, name, index, n)` (point.go:123-375): run
`pre`; unless it returns false, walk the children in the order of the node
kind's slot declarations, then run `post`; `post` returning false aborts the
whole traversal.  The committed value at the locator is the last `SetField`
there, else the node with its walked children. -/
def applyN {σ : Type} (pre post : Option (Cb σ)) (s : σ) (parent : Node)
    (name : String) (index : Int) (n : Node) : Res σ :=
  match callCb pre s parent name index n with
  | .fault e => .fault e
  | .out s1 cont setf =>
    if cont then
      match n with
      | .nil => applyPost post s1 parent name index setf .nil
      | .Ident a => applyPost post s1 parent name index setf (.Ident a)
      | .BasicLit a => applyPost post s1 parent name index setf (.BasicLit a)
      | .ParenExpr x =>
        match applyN pre post s1 n "X" (-1) x with
        | .fault e => .fault e
        | .abort s2 x1 => .abort s2 (orSet setf (.ParenExpr x1))
        | .ok s2 x1 => applyPost post s2 parent name index setf (.ParenExpr x1)
      | .SelectorExpr x sel =>
        match applyN pre post s1 n "X" (-1) x with
        | .fault e => .fault e
        | .abort s2 x1 => .abort s2 (orSet setf (.SelectorExpr x1 sel))
        | .ok s2 x1 =>
          match applyN pre post s2 n "Sel" (-1) sel with
          | .fault e => .fault e
          | .abort s3 sel1 => .abort s3 (orSet setf (.SelectorExpr x1 sel1))
          | .ok s3 sel1 => applyPost post s3 parent name index setf (.SelectorExpr x1 sel1)
      | .IndexExpr x idx =>
        match applyN pre post s1 n "X" (-1) x with
        | .fault e => .fault e
        | .abort s2 x1 => .abort s2 (orSet setf (.IndexExpr x1 idx))
        | .ok s2 x1 =>
          match applyList pre post s2 n "Index" 0 idx with
          | .fault e => .fault e
          | .abort s3 idx1 => .abort s3 (orSet setf (.IndexExpr x1 idx1))
          | .ok s3 idx1 => applyPost post s3 parent name index setf (.IndexExpr x1 idx1)
      | .CallExpr f args =>
        match applyN pre post s1 n "Fun" (-1) f with
        | .fault e => .fault e
        | .abort s2 f1 => .abort s2 (orSet setf (.CallExpr f1 args))
        | .ok s2 f1 =>
          match applyList pre post s2 n "Args" 0 args with
          | .fault e => .fault e
          | .abort s3 args1 => .abort s3 (orSet setf (.CallExpr f1 args1))
          | .ok s3 args1 => applyPost post s3 parent name index setf (.CallExpr f1 args1)
      | .BinaryExpr x op y =>
        match applyN pre post s1 n "X" (-1) x with
        | .fault e => .fault e
        | .abort s2 x1 => .abort s2 (orSet setf (.BinaryExpr x1 op y))
        | .ok s2 x1 =>
          match applyN pre post s2 n "Y" (-1) y with
          | .fault e => .fault e
          | .abort s3 y1 => .abort s3 (orSet setf (.BinaryExpr x1 op y1))
          | .ok s3 y1 => applyPost post s3 parent name index setf (.BinaryExpr x1 op y1)
      | .CompositeLit ty elts =>
        match applyN pre post s1 n "Type" (-1) ty with
        | .fault e => .fault e
        | .abort s2 ty1 => .abort s2 (orSet setf (.CompositeLit ty1 elts))
        | .ok s2 ty1 =>
          match applyList pre post s2 n "Elts" 0 elts with
          | .fault e => .fault e
          | .abort s3 elts1 => .abort s3 (orSet setf (.CompositeLit ty1 elts1))
          | .ok s3 elts1 => applyPost post s3 parent name index setf (.CompositeLit ty1 elts1)
      | .Field names ty =>
        match applyList pre post s1 n "Names" 0 names with
        | .fault e => .fault e
        | .abort s2 names1 => .abort s2 (orSet setf (.Field names1 ty))
        | .ok s2 names1 =>
          match applyN pre post s2 n "Type" (-1) ty with
          | .fault e => .fault e
          | .abort s3 ty1 => .abort s3 (orSet setf (.Field names1 ty1))
          | .ok s3 ty1 => applyPost post s3 parent name index setf (.Field names1 ty1)
      | .FieldList l =>
        match applyList pre post s1 n "List" 0 l with
        | .fault e => .fault e
        | .abort s2 l1 => .abort s2 (orSet setf (.FieldList l1))
        | .ok s2 l1 => applyPost post s2 parent name index setf (.FieldList l1)
      | .StructType fields =>
        match applyN pre post s1 n "Fields" (-1) fields with
        | .fault e => .fault e
        | .abort s2 f1 => .abort s2 (orSet setf (.StructType f1))
        | .ok s2 f1 => applyPost post s2 parent name index setf (.StructType f1)
      | .FuncType params results =>
        match applyN pre post s1 n "Params" (-1) params with
        | .fault e => .fault e
        | .abort s2 p1 => .abort s2 (orSet setf (.FuncType p1 results))
        | .ok s2 p1 =>
          match applyN pre post s2 n "Results" (-1) results with
          | .fault e => .fault e
          | .abort s3 r1 => .abort s3 (orSet setf (.FuncType p1 r1))
          | .ok s3 r1 => applyPost post s3 parent name index setf (.FuncType p1 r1)
      | .InterfaceType methods =>
        match applyN pre post s1 n "Methods" (-1) methods with
        | .fault e => .fault e
        | .abort s2 m1 => .abort s2 (orSet setf (.InterfaceType m1))
        | .ok s2 m1 => applyPost post s2 parent name index setf (.InterfaceType m1)
      | .ExprStmt x =>
        match applyN pre post s1 n "X" (-1) x with
        | .fault e => .fault e
        | .abort s2 x1 => .abort s2 (orSet setf (.ExprStmt x1))
        | .ok s2 x1 => applyPost post s2 parent name index setf (.ExprStmt x1)
      | .AssignStmt lhs rhs =>
        match applyList pre post s1 n "Lhs" 0 lhs with
        | .fault e => .fault e
        | .abort s2 lhs1 => .abort s2 (orSet setf (.AssignStmt lhs1 rhs))
        | .ok s2 lhs1 =>
          match applyList pre post s2 n "Rhs" 0 rhs with
          | .fault e => .fault e
          | .abort s3 rhs1 => .abort s3 (orSet setf (.AssignStmt lhs1 rhs1))
          | .ok s3 rhs1 => applyPost post s3 parent name index setf (.AssignStmt lhs1 rhs1)
      | .BlockStmt l =>
        match applyList pre post s1 n "List" 0 l with
        | .fault e => .fault e
        | .abort s2 l1 => .abort s2 (orSet setf (.BlockStmt l1))
        | .ok s2 l1 => applyPost post s2 parent name index setf (.BlockStmt l1)
      | .ReturnStmt results =>
        match applyList pre post s1 n "Results" 0 results with
        | .fault e => .fault e
        | .abort s2 r1 => .abort s2 (orSet setf (.ReturnStmt r1))
        | .ok s2 r1 => applyPost post s2 parent name index setf (.ReturnStmt r1)
      | .GenDecl specs =>
        match applyList pre post s1 n "Specs" 0 specs with
        | .fault e => .fault e
        | .abort s2 sp1 => .abort s2 (orSet setf (.GenDecl sp1))
        | .ok s2 sp1 => applyPost post s2 parent name index setf (.GenDecl sp1)
      | .TypeSpec nm ty =>
        match applyN pre post s1 n "Name" (-1) nm with
        | .fault e => .fault e
        | .abort s2 nm1 => .abort s2 (orSet setf (.TypeSpec nm1 ty))
        | .ok s2 nm1 =>
          match applyN pre post s2 n "Type" (-1) ty with
          | .fault e => .fault e
          | .abort s3 ty1 => .abort s3 (orSet setf (.TypeSpec nm1 ty1))
          | .ok s3 ty1 => applyPost post s3 parent name index setf (.TypeSpec nm1 ty1)
      | .FuncDecl recv nm ty body =>
        match applyN pre post s1 n "Recv" (-1) recv with
        | .fault e => .fault e
        | .abort s2 recv1 => .abort s2 (orSet setf (.FuncDecl recv1 nm ty body))
        | .ok s2 recv1 =>
          match applyN pre post s2 n "Name" (-1) nm with
          | .fault e => .fault e
          | .abort s3 nm1 => .abort s3 (orSet setf (.FuncDecl recv1 nm1 ty body))
          | .ok s3 nm1 =>
            match applyN pre post s3 n "Type" (-1) ty with
            | .fault e => .fault e
            | .abort s4 ty1 => .abort s4 (orSet setf (.FuncDecl recv1 nm1 ty1 body))
            | .ok s4 ty1 =>
              match applyN pre post s4 n "Body" (-1) body with
              | .fault e => .fault e
              | .abort s5 b1 => .abort s5 (orSet setf (.FuncDecl recv1 nm1 ty1 b1))
              | .ok s5 b1 => applyPost post s5 parent name index setf (.FuncDecl recv1 nm1 ty1 b1)
      | .File nm decls =>
        match applyN pre post s1 n "Name" (-1) nm with
        | .fault e => .fault e
        | .abort s2 nm1 => .abort s2 (orSet setf (.File nm1 decls))
        | .ok s2 nm1 =>
          match applyList pre post s2 n "Decls" 0 decls with
          | .fault e => .fault e
          | .abort s3 d1 => .abort s3 (orSet setf (.File nm1 d1))
          | .ok s3 d1 => applyPost post s3 parent name index setf (.File nm1 d1)
    else .ok s1 (orSet setf n)

/-- The `applyIdentList`/`applyExprList`/`applyStmtList`/`applyDeclList`
helpers (point.go:379-400), identical up to the element type: walk a slice
slot element by element, index counting up from 0; an abort in an element
unwinds at once, leaving the remaining elements unvisited. -/
def applyList {σ : Type} (pre post : Option (Cb σ)) (s : σ) (parent : Node)
    (name : String) (index : Int) (l : NodeList) : ResL σ :=
  match l with
  | .nil => .ok s .nil
  | .cons x xs =>
    match applyN pre post s parent name index x with
    | .fault e => .fault e
    | .abort s1 x1 => .abort s1 (.cons x1 xs)
    | .ok s1 x1 =>
      match applyList pre post s1 parent name (index + 1) xs with
      | .fault e => .fault e
      | .abort s2 xs1 => .abort s2 (.cons x1 xs1)
      | .ok s2 xs1 => .ok s2 (.cons x1 xs1)
end

/-- Result of the public `Apply`: the closure state and the returned root,
or an uncaught panic. -/
inductive ApplyRes (σ : Type) where
  | ok (s : σ) (result : Node)
  | fault (msg : String)
  deriving DecidableEq

/-- `ast.Apply(root, pre, post)` (point.go:84-93): run the traversal from the
root locator (the parent is the `application` struct, not a syntax node —
modelled as `nil`; name "Node", index -1) and return the committed root.  The
deferred recover catches exactly the abort panic, in which case the function
returns its zero-valued result (nil); any other panic is re-raised. -/
def Apply {σ : Type} (pre post : Option (Cb σ)) (s : σ) (root : Node) : ApplyRes σ :=
  match applyN pre post s .nil "Node" (-1) root with
  | .ok s1 v => .ok s1 v
  | .abort s1 _ => .ok s1 .nil
  | .fault e => .fault e

example :
    applyN (σ := Unit) none none () .nil "Node" (-1)
      (.BinaryExpr (.Ident "a") "+" (.Ident "b")) =
    .ok () (.BinaryExpr (.Ident "a") "+" (.Ident "b")) := rfl

/-! ## The operator-name normalizer (mogo.go:39-60)

`main` first runs `ast.Apply(file, pre, nil)` with a `pre` callback that
(a) on an `*ast.InterfaceType`, renames in place every method name that is a
key of `methName` to its canonical identifier and returns true (the walk then
descends into the — renamed — interface, reaching interfaces nested in the
method signatures), and (b) on an `*ast.FuncDecl`, renames the declared name
the same way when the declaration has a receiver and returns false, so the
traversal never enters any part of a function declaration.

Since walking an `*ast.Ident` has no effect (apply has no children to visit
there and the callback's type switch falls through), renaming a method-name
identifier and then walking it equals renaming it alone; the pass is
therefore translated as the direct recursive functions below, one equation
per `apply` case, with the callback's effects fused in. -/

/-- Canonicalize one name by the operator table: the effect of
`if name, ok := methName[x]; ok { x = name }`. -/
def canon (s : String) : String :=
  match methName s with
  | some m => m
  | none => s

/-- Rename one name node in place (the renamed slots hold `*ast.Ident`
values; a non-identifier is left as it stands). -/
def renameIdent : Node → Node
  | .Ident s => .Ident (canon s)
  | x => x

mutual
/-- The normalizer pass on one node: `ast.Apply(·, pre, nil)` with the
operator-name `pre` callback of mogo.go:39-60. -/
def normN : Node → Node
  | .nil => .nil
  | .Ident a => .Ident a
  | .BasicLit a => .BasicLit a
  | .ParenExpr x => .ParenExpr (normN x)
  | .SelectorExpr x sel => .SelectorExpr (normN x) (normN sel)
  | .IndexExpr x idx => .IndexExpr (normN x) (normL idx)
  | .CallExpr f args => .CallExpr (normN f) (normL args)
  | .BinaryExpr x op y => .BinaryExpr (normN x) op (normN y)
  | .CompositeLit ty elts => .CompositeLit (normN ty) (normL elts)
  | .Field names ty => .Field (normL names) (normN ty)
  | .FieldList l => .FieldList (normL l)
  | .StructType fields => .StructType (normN fields)
  | .FuncType params results => .FuncType (normN params) (normN results)
  | .InterfaceType methods => .InterfaceType (normIfaceMethods methods)
  | .ExprStmt x => .ExprStmt (normN x)
  | .AssignStmt lhs rhs => .AssignStmt (normL lhs) (normL rhs)
  | .BlockStmt l => .BlockStmt (normL l)
  | .ReturnStmt results => .ReturnStmt (normL results)
  | .GenDecl specs => .GenDecl (normL specs)
  | .TypeSpec nm ty => .TypeSpec (normN nm) (normN ty)
  | .FuncDecl recv nm ty body =>
    -- pre: rename the declared name when there is a receiver, then return
    -- false — the subtree is neither descended nor post-processed.
    .FuncDecl recv (match recv with | .nil => nm | _ => renameIdent nm) ty body
  | .File nm decls => .File (normN nm) (normL decls)
/-- The normalizer on a slice slot. -/
def normL : NodeList → NodeList
  | .nil => .nil
  | .cons x xs => .cons (normN x) (normL xs)
/-- `pre` on an `*ast.InterfaceType` renames every method name in
`n.Methods.List`, then the walk descends into `Methods`. -/
def normIfaceMethods : Node → Node
  | .FieldList l => .FieldList (normIfaceFields l)
  | m => normN m
/-- The renamed-then-walked method list of an interface. -/
def normIfaceFields : NodeList → NodeList
  | .nil => .nil
  | .cons f fs => .cons (normIfaceField f) (normIfaceFields fs)
/-- One interface method entry: its `Names` were renamed by `pre`; the walk
then visits the (renamed) names — a no-op on identifiers — and the type. -/
def normIfaceField : Node → Node
  | .Field names ty => .Field (normIfaceNames names) (normN ty)
  | f => normN f
/-- The `for _, ident := range m.Names` rename loop fused with the walk:
an identifier is renamed (walking it afterwards changes nothing); anything
else is not touched by the rename loop and just walked. -/
def normIfaceNames : NodeList → NodeList
  | .nil => .nil
  | .cons nm nms =>
    .cons (match nm with | .Ident s => .Ident (canon s) | x => normN x) (normIfaceNames nms)
end

mutual
/-- Well-formedness of the slots the parser types as `*ast.Ident` /
`[]*ast.Ident`: every element of a `Field`'s `Names` slot is an identifier.
Go's typed AST guarantees this by construction. -/
def wfN : Node → Bool
  | .nil => true
  | .Ident _ => true
  | .BasicLit _ => true
  | .ParenExpr x => wfN x
  | .SelectorExpr x sel => wfN x && wfN sel
  | .IndexExpr x idx => wfN x && wfL idx
  | .CallExpr f args => wfN f && wfL args
  | .BinaryExpr x _ y => wfN x && wfN y
  | .CompositeLit ty elts => wfN ty && wfL elts
  | .Field names ty => allIdents names && wfN ty
  | .FieldList l => wfL l
  | .StructType fields => wfN fields
  | .FuncType params results => wfN params && wfN results
  | .InterfaceType methods => wfN methods
  | .ExprStmt x => wfN x
  | .AssignStmt lhs rhs => wfL lhs && wfL rhs
  | .BlockStmt l => wfL l
  | .ReturnStmt results => wfL results
  | .GenDecl specs => wfL specs
  | .TypeSpec nm ty => wfN nm && wfN ty
  | .FuncDecl recv nm ty body => wfN recv && wfN nm && wfN ty && wfN body
  | .File nm decls => wfN nm && wfL decls
def wfL : NodeList → Bool
  | .nil => true
  | .cons x xs => wfN x && wfL xs
def allIdents : NodeList → Bool
  | .nil => true
  | .cons (.Ident _) xs => allIdents xs
  | .cons _ _ => false
end

/-- Rename every element of a name list (spec-side description of the
interface rename step). -/
def mapRename : NodeList → NodeList
  | .nil => .nil
  | .cons x xs => .cons (renameIdent x) (mapRename xs)

mutual
/-- The Operator Name Normalizer as the spec words it (spec §4.2): "For
every interface-type node, rewrites each method-signature name equal to a
recognized operator symbol (keys of OperatorTable) to its canonical
identifier.  For every receiver-bound function declaration, rewrites the
declared name the same way.  Does not descend into function bodies."  The
definition makes the frame evident: apart from interface method names and
receiver-bound declaration names, every slot is rebuilt unchanged, and a
function declaration's subtree is returned verbatim. -/
def normSpecN : Node → Node
  | .nil => .nil
  | .Ident a => .Ident a
  | .BasicLit a => .BasicLit a
  | .ParenExpr x => .ParenExpr (normSpecN x)
  | .SelectorExpr x sel => .SelectorExpr (normSpecN x) (normSpecN sel)
  | .IndexExpr x idx => .IndexExpr (normSpecN x) (normSpecL idx)
  | .CallExpr f args => .CallExpr (normSpecN f) (normSpecL args)
  | .BinaryExpr x op y => .BinaryExpr (normSpecN x) op (normSpecN y)
  | .CompositeLit ty elts => .CompositeLit (normSpecN ty) (normSpecL elts)
  | .Field names ty => .Field (normSpecL names) (normSpecN ty)
  | .FieldList l => .FieldList (normSpecL l)
  | .StructType fields => .StructType (normSpecN fields)
  | .FuncType params results => .FuncType (normSpecN params) (normSpecN results)
  | .InterfaceType methods => .InterfaceType (specMethods methods)
  | .ExprStmt x => .ExprStmt (normSpecN x)
  | .AssignStmt lhs rhs => .AssignStmt (normSpecL lhs) (normSpecL rhs)
  | .BlockStmt l => .BlockStmt (normSpecL l)
  | .ReturnStmt results => .ReturnStmt (normSpecL results)
  | .GenDecl specs => .GenDecl (normSpecL specs)
  | .TypeSpec nm ty => .TypeSpec (normSpecN nm) (normSpecN ty)
  | .FuncDecl recv nm ty body =>
    .FuncDecl recv (if recv = .nil then nm else renameIdent nm) ty body
  | .File nm decls => .File (normSpecN nm) (normSpecL decls)
def normSpecL : NodeList → NodeList
  | .nil => .nil
  | .cons x xs => .cons (normSpecN x) (normSpecL xs)
def specMethods : Node → Node
  | .FieldList l => .FieldList (specFieldL l)
  | m => normSpecN m
def specFieldL : NodeList → NodeList
  | .nil => .nil
  | .cons f fs => .cons (specField f) (specFieldL fs)
def specField : Node → Node
  | .Field names ty => .Field (mapRename names) (normSpecN ty)
  | f => normSpecN f
end

/-! ## The type-directed desugaring sweep (mogo.go:63-100, 113-127) -/

/-- `func rewrite(pkg, tmap, recv, opname, args...)` (mogo.go:120-127): look
up, on the static type the latest `TypeBinding` assigns to `recv`, a method
named `methName[opname]` (the zero value "" when `opname` is not a key);
when a method is found, build the call `recv.<method>(args...)`.  The lookup
itself (`types.LookupFieldOrMethod` finding a `*types.Func`) is the external
type-resolution collaborator and is passed in as `lookup`. -/
def rewriteOp {T : Type} (lookup : Option T → String → Bool)
    (tmap : Node → Option T) (recv : Node) (opname : String)
    (args : NodeList) : Option Node :=
  let mname := match methName opname with | some m => m | none => ""
  if lookup (tmap recv) mname then
    some (.CallExpr (.SelectorExpr recv (.Ident mname)) args)
  else
    none

/-- The sweep's `pre` callback (mogo.go:70-84): on a single-target,
single-source assignment whose target is an index expression, try the
element-write rewrite `recv.ATSET__(idx..., rhs)`; on success replace the
whole assignment statement with an expression statement (`ast.SetField`) and
record progress.  Always returns true. -/
def sweepPre {T : Type} (lookup : Option T → String → Bool)
    (tmap : Node → Option T) : Cb Bool := fun progress _parent _name _index n =>
  match n with
  | .AssignStmt (.cons lhs0 .nil) (.cons rhs0 .nil) =>
    match lhs0 with
    | .IndexExpr lx lidx =>
      match rewriteOp lookup tmap lx "[]=" (lidx.append (.cons rhs0 .nil)) with
      | some r => .out true true (some (.ExprStmt r))
      | none => .out progress true none
    | _ => .out progress true none
  | _ => .out progress true none

/-- The sweep's `post` callback (mogo.go:85-98): on an index expression, try
the element-read rewrite `recv.AT__(idx...)`; on a binary expression, try
`x.<op-method>(y)`; on success replace the node (`ast.SetField`) and record
progress.  Always returns true. -/
def sweepPost {T : Type} (lookup : Option T → String → Bool)
    (tmap : Node → Option T) : Cb Bool := fun progress _parent _name _index n =>
  let r : Option Node :=
    match n with
    | .IndexExpr x idx => rewriteOp lookup tmap x "[]" idx
    | .BinaryExpr x op y => rewriteOp lookup tmap x op (.cons y .nil)
    | _ => none
  match r with
  | some c => .out true true (some c)
  | none => .out progress true none

/-- The narrow interface to the external type-resolution collaborator
(spec §6): `typecheck` returns the `TypeBinding` for the current tree and the
verdict `err == nil`; `lookup ty m` tells whether
`types.LookupFieldOrMethod(ty, false, pkg, m)` finds a `*types.Func`
(`none` stands for an expression the binding does not cover, whose lookup is
over the nil/invalid type). -/
structure Resolver (T : Type) where
  typecheck : Node → (Node → Option T) × Bool
  lookup : Option T → String → Bool

/-- One resolve-then-sweep iteration body (mogo.go:64-99): type-check the
current tree, then run one `ast.Apply` sweep with `progress` reset to false.
Exposed separately so single sweeps can be stated. -/
def sweepStep {T : Type} (R : Resolver T) (t : Node) : Res Bool :=
  applyN (some (sweepPre R.lookup (R.typecheck t).1))
    (some (sweepPost R.lookup (R.typecheck t).1)) false .nil "Node" (-1) t

/-- The fixed-point loop (mogo.go:63-100): starting from `progress := true`,
repeatedly type-check; stop when resolution succeeds or the previous sweep
made no progress; otherwise reset `progress` and run one rewrite sweep.  The
returned list records the progress flag of each executed sweep, in order.
The fuel argument only bounds the number of iterations; the termination
theorems show any `claimCount t + 2` is enough.  (The sweep callbacks never
abort or fault, so the fallthrough branch is unreachable; Go continues with
the in-place-updated tree, which is the committed root value.) -/
def mogoLoop {T : Type} (R : Resolver T) : Nat → Bool → Node → Node × List Bool
  | 0, _, t => (t, [])
  | fuel + 1, progress, t =>
    let tc := R.typecheck t
    if tc.2 || !progress then (t, [])
    else
      match applyN (some (sweepPre R.lookup tc.1)) (some (sweepPost R.lookup tc.1))
          false .nil "Node" (-1) t with
      | .ok s1 t1 =>
        let rest := mogoLoop R fuel s1 t1
        (rest.1, s1 :: rest.2)
      | _ => (t, [])

mutual
/-- The operator-expression nodes of the termination claim: binary-operator
expressions and index expressions.  Each committed rewrite removes exactly
one of them and creates none. -/
def opCount : Node → Nat
  | .nil => 0
  | .Ident _ => 0
  | .BasicLit _ => 0
  | .ParenExpr x => opCount x
  | .SelectorExpr x sel => opCount x + opCount sel
  | .IndexExpr x idx => 1 + opCount x + opCountL idx
  | .CallExpr f args => opCount f + opCountL args
  | .BinaryExpr x _ y => 1 + opCount x + opCount y
  | .CompositeLit ty elts => opCount ty + opCountL elts
  | .Field names ty => opCountL names + opCount ty
  | .FieldList l => opCountL l
  | .StructType fields => opCount fields
  | .FuncType params results => opCount params + opCount results
  | .InterfaceType methods => opCount methods
  | .ExprStmt x => opCount x
  | .AssignStmt lhs rhs => opCountL lhs + opCountL rhs
  | .BlockStmt l => opCountL l
  | .ReturnStmt results => opCountL results
  | .GenDecl specs => opCountL specs
  | .TypeSpec nm ty => opCount nm + opCount ty
  | .FuncDecl recv nm ty body => opCount recv + opCount nm + opCount ty + opCount body
  | .File nm decls => opCount nm + opCountL decls
def opCountL : NodeList → Nat
  | .nil => 0
  | .cons x xs => opCount x + opCountL xs
end

mutual
/-- The claim's count of operator-expression nodes: index expressions,
binary-operator expressions, and index-write assignments (single-target,
single-source assignments whose target is an index expression). -/
def claimCount : Node → Nat
  | .nil => 0
  | .Ident _ => 0
  | .BasicLit _ => 0
  | .ParenExpr x => claimCount x
  | .SelectorExpr x sel => claimCount x + claimCount sel
  | .IndexExpr x idx => 1 + claimCount x + claimCountL idx
  | .CallExpr f args => claimCount f + claimCountL args
  | .BinaryExpr x _ y => 1 + claimCount x + claimCount y
  | .CompositeLit ty elts => claimCount ty + claimCountL elts
  | .Field names ty => claimCountL names + claimCount ty
  | .FieldList l => claimCountL l
  | .StructType fields => claimCount fields
  | .FuncType params results => claimCount params + claimCount results
  | .InterfaceType methods => claimCount methods
  | .ExprStmt x => claimCount x
  | .AssignStmt lhs rhs =>
    (match lhs, rhs with
     | .cons (.IndexExpr _ _) .nil, .cons _ .nil => 1
     | _, _ => 0) + claimCountL lhs + claimCountL rhs
  | .BlockStmt l => claimCountL l
  | .ReturnStmt results => claimCountL results
  | .GenDecl specs => claimCountL specs
  | .TypeSpec nm ty => claimCount nm + claimCount ty
  | .FuncDecl recv nm ty body =>
    claimCount recv + claimCount nm + claimCount ty + claimCount body
  | .File nm decls => claimCount nm + claimCountL decls
def claimCountL : NodeList → Nat
  | .nil => 0
  | .cons x xs => claimCount x + claimCountL xs
end

/-! ## The `Point` fixture (point.go) and a modelled resolver for it -/

/-- The static types the `a + b + a + b` fixture needs: `Point` (point.go
declares `type Point struct`, a `+` method on it, and `a`, `b` of that
type). -/
inductive PtTy where
  | Point
  deriving DecidableEq

mutual
/-- Containment: does `e` occur as a node of `t`?  (Stands in for "the
expression was present in the tree handed to the checker", the structural
counterpart of go/types' pointer-keyed `Info.Types` map.) -/
def occursN (e t : Node) : Bool :=
  (t == e) ||
  match t with
  | .nil => false
  | .Ident _ => false
  | .BasicLit _ => false
  | .ParenExpr x => occursN e x
  | .SelectorExpr x sel => occursN e x || occursN e sel
  | .IndexExpr x idx => occursN e x || occursL e idx
  | .CallExpr f args => occursN e f || occursL e args
  | .BinaryExpr x _ y => occursN e x || occursN e y
  | .CompositeLit ty elts => occursN e ty || occursL e elts
  | .Field names ty => occursL e names || occursN e ty
  | .FieldList l => occursL e l
  | .StructType fields => occursN e fields
  | .FuncType params results => occursN e params || occursN e results
  | .InterfaceType methods => occursN e methods
  | .ExprStmt x => occursN e x
  | .AssignStmt lhs rhs => occursL e lhs || occursL e rhs
  | .BlockStmt l => occursL e l
  | .ReturnStmt results => occursL e results
  | .GenDecl specs => occursL e specs
  | .TypeSpec nm ty => occursN e nm || occursN e ty
  | .FuncDecl recv nm ty body =>
    occursN e recv || occursN e nm || occursN e ty || occursN e body
  | .File nm decls => occursN e nm || occursL e decls
def occursL (e : Node) : NodeList → Bool
  | .nil => false
  | .cons x xs => occursN e x || occursL e xs
end

mutual
/-- Is any binary-operator expression left in the tree? -/
def hasBinaryN : Node → Bool
  | .nil => false
  | .Ident _ => false
  | .BasicLit _ => false
  | .ParenExpr x => hasBinaryN x
  | .SelectorExpr x sel => hasBinaryN x || hasBinaryN sel
  | .IndexExpr x idx => hasBinaryN x || hasBinaryL idx
  | .CallExpr f args => hasBinaryN f || hasBinaryL args
  | .BinaryExpr _ _ _ => true
  | .CompositeLit ty elts => hasBinaryN ty || hasBinaryL elts
  | .Field names ty => hasBinaryL names || hasBinaryN ty
  | .FieldList l => hasBinaryL l
  | .StructType fields => hasBinaryN fields
  | .FuncType params results => hasBinaryN params || hasBinaryN results
  | .InterfaceType methods => hasBinaryN methods
  | .ExprStmt x => hasBinaryN x
  | .AssignStmt lhs rhs => hasBinaryL lhs || hasBinaryL rhs
  | .BlockStmt l => hasBinaryL l
  | .ReturnStmt results => hasBinaryL results
  | .GenDecl specs => hasBinaryL specs
  | .TypeSpec nm ty => hasBinaryN nm || hasBinaryN ty
  | .FuncDecl recv nm ty body =>
    hasBinaryN recv || hasBinaryN nm || hasBinaryN ty || hasBinaryN body
  | .File nm decls => hasBinaryN nm || hasBinaryL decls
def hasBinaryL : NodeList → Bool
  | .nil => false
  | .cons x xs => hasBinaryN x || hasBinaryL xs
end

/-- Modelled from the spec: the go/types collaborator's typing of the
`a + b + a + b` fixture (the checker itself is outside this repository's
core, spec §1/§6).  `a` and `b` have static type `Point`, and a call
`recv.ADD__(arg)` with both sides of type `Point` has type `Point` (the `+`
method of point.go:15 has one `Point` parameter and a `Point` result); a
binary operator expression over `Point` values is a type error and gets no
binding. -/
def pointTy : Node → Option PtTy
  | .Ident "a" => some .Point
  | .Ident "b" => some .Point
  | .CallExpr (.SelectorExpr recv (.Ident "ADD__")) (.cons arg .nil) =>
    match pointTy recv, pointTy arg with
    | some .Point, some .Point => some .Point
    | _, _ => none
  | _ => none

/-- Modelled from the spec: the type-resolution collaborator for the `Point`
fixture.  The `TypeBinding` is partial and "valid only for the most recent
resolution attempt" (spec §3): only expressions occurring in the tree handed
to `typecheck` are bound, so a call built during the current sweep is
unbound until the next resolve — exactly why a chain resolves one nesting
level per sweep.  Resolution succeeds once no overloaded binary operator
remains; `Point` has exactly the one operator method `ADD__`. -/
def pointResolver : Resolver PtTy where
  typecheck := fun t => (fun e => if occursN e t then pointTy e else none, !hasBinaryN t)
  lookup := fun ty m => ty == some PtTy.Point && m == "ADD__"

/-! ## The tail of `main` (mogo.go:102-111) -/

/-- Combined output and exit status of a finished process. -/
structure ProcResult where
  out : String
  exit : Int
  deriving DecidableEq

/-- mogo.go:108-111: `out, _ := exec.Command("go", "run",
filename).CombinedOutput()` captures the build/run step's combined output
and discards its error (and with it the step's exit status); `fmt.Printf("%s",
out)` prints the output verbatim; `main` then returns normally, so the
process exits with status 0 whatever the step's own status was. -/
def mainTail (step : ProcResult) : ProcResult :=
  { out := step.out, exit := 0 }

/-! ## Traversal traces -/

/-- One visitor invocation, with the arguments `ApplyFunc` receives. -/
inductive Ev where
  | pre (parent : Node) (name : String) (index : Int) (n : Node)
  | post (parent : Node) (name : String) (index : Int) (n : Node)
  deriving DecidableEq

/-- A `pre` callback that only logs its invocation. -/
def logPre : Cb (List Ev) := fun s parent name index n =>
  .out (s ++ [.pre parent name index n]) true none

/-- A `post` callback that only logs its invocation. -/
def logPost : Cb (List Ev) := fun s parent name index n =>
  .out (s ++ [.post parent name index n]) true none

/-- The visit trace of one subtree: the visitor invocations, in order, that
`apply` performs below the given locator. -/
def traceN (parent : Node) (name : String) (index : Int) (n : Node) : List Ev :=
  match applyN (some logPre) (some logPost) [] parent name index n with
  | .ok t _ => t
  | _ => []

/-- The visit trace of one slice slot. -/
def traceL (parent : Node) (name : String) (index : Int) (l : NodeList) : List Ev :=
  match applyList (some logPre) (some logPost) [] parent name index l with
  | .ok t _ => t
  | _ => []

/-! ## Fixtures -/

/-- `a` of the point.go fixture. -/
def aN : Node := .Ident "a"

/-- `b` of the point.go fixture. -/
def bN : Node := .Ident "b"

/-- The desugared call `recv.ADD__(arg)`. -/
def addCall (recv arg : Node) : Node :=
  .CallExpr (.SelectorExpr recv (.Ident "ADD__")) (.cons arg .nil)

/-- `a + b + a + b` as it parses: left-associative. -/
def chain0 : Node := .BinaryExpr (.BinaryExpr (.BinaryExpr aN "+" bN) "+" aN) "+" bN

/-- After one sweep: only the innermost level is resolved. -/
def chain1 : Node := .BinaryExpr (.BinaryExpr (addCall aN bN) "+" aN) "+" bN

/-- After two sweeps. -/
def chain2 : Node := .BinaryExpr (addCall (addCall aN bN) aN) "+" bN

/-- After three sweeps: `((a.ADD__(b)).ADD__(a)).ADD__(b)`. -/
def chain3 : Node := addCall (addCall (addCall aN bN) aN) bN

/-- A resolver whose type-check always fails and binds nothing: the plain
behaviour of the external checker on a file it cannot type for reasons other
than operator syntax (e.g. an undefined name). -/
def trivialResolver : Resolver PtTy where
  typecheck := fun _ => (fun _ => none, false)
  lookup := fun _ _ => false

/-! ## Lemmas about the sweep -/

/-- Progress/size accounting for one walked subtree: the operator-node count
never grows; the progress flag is monotone; a sweep that ends without
progress started without progress and left the subtree unchanged; and a
subtree on which progress first appeared lost at least one operator node. -/
def stepOK (sIn sOut : Bool) (oldC newC : Nat) (unchanged : Prop) : Prop :=
  newC ≤ oldC ∧ (sIn = true → sOut = true) ∧
    (sOut = false → sIn = false ∧ unchanged) ∧
    (sIn = false → sOut = true → newC < oldC)

theorem stepOK_base {s : Bool} {a : Nat} {p : Prop} (hp : p) : stepOK s s a a p :=
  ⟨le_rfl, fun h => h, fun h => ⟨h, hp⟩, fun h1 h2 => by rw [h1] at h2; cases h2⟩

theorem stepOK_comp {s s1 s2 : Bool} {a a1 b b1 : Nat} {p q : Prop}
    (h1 : stepOK s s1 a a1 p) (h2 : stepOK s1 s2 b b1 q) :
    stepOK s s2 (a + b) (a1 + b1) (p ∧ q) := by
  obtain ⟨hle1, hm1, hz1, hs1⟩ := h1
  obtain ⟨hle2, hm2, hz2, hs2⟩ := h2
  refine ⟨Nat.add_le_add hle1 hle2, fun h => hm2 (hm1 h), fun h => ?_, fun h0 h2' => ?_⟩
  · obtain ⟨h1', hq⟩ := hz2 h
    obtain ⟨h0', hp⟩ := hz1 h1'
    exact ⟨h0', hp, hq⟩
  · cases hs1' : s1 with
    | true => have := hs1 h0 hs1'; omega
    | false => have := hs2 hs1' h2'; omega

theorem stepOK_lift {s s2 : Bool} {a b k : Nat} {p q : Prop}
    (h : stepOK s s2 a b p) (himp : p → q) : stepOK s s2 (k + a) (k + b) q := by
  obtain ⟨hle, hm, hz, hs⟩ := h
  exact ⟨Nat.add_le_add_left hle k, hm,
    fun h0 => ⟨(hz h0).1, himp (hz h0).2⟩,
    fun h0 h1 => Nat.add_lt_add_left (hs h0 h1) k⟩

theorem stepOK_fire {s : Bool} {a b : Nat} (hb : b ≤ a) (p : Prop) :
    stepOK s true (1 + a) b p := by
  unfold stepOK
  refine ⟨by omega, fun _ => rfl, fun h => by simp at h, fun _ _ => by omega⟩

theorem opCountL_append (xs ys : NodeList) :
    opCountL (xs.append ys) = opCountL xs + opCountL ys := by
  match xs with
  | .nil => simp [NodeList.append, opCountL]
  | .cons x tl =>
    have ih := opCountL_append tl ys
    simp [NodeList.append, opCountL, ih]; omega

theorem rewriteOp_some {T : Type} {lookup : Option T → String → Bool}
    {tmap : Node → Option T} {recv : Node} {opname : String} {args : NodeList}
    {c : Node} (h : rewriteOp lookup tmap recv opname args = some c) :
    ∃ m, c = .CallExpr (.SelectorExpr recv (.Ident m)) args := by
  simp only [rewriteOp] at h
  split at h
  · exact ⟨_, (Option.some_inj.mp h).symm⟩
  · cases h

set_option maxHeartbeats 1000000

/-! Per-constructor unfolding equations for the engine, proved once so that
later proofs never re-unfold the full recursion. -/

theorem applyN_nil {σ : Type} (pre post : Option (Cb σ)) (s : σ) (parent : Node)
    (name : String) (index : Int) :
    applyN pre post s parent name index .nil =
      match callCb pre s parent name index .nil with
      | .fault e => .fault e
      | .out s1 cont setf =>
        if cont then
          applyPost post s1 parent name index setf .nil
        else .ok s1 (orSet setf .nil) := by
  rw [applyN]

theorem applyN_Ident {σ : Type} (pre post : Option (Cb σ)) (s : σ) (parent : Node)
    (name : String) (index : Int) (a : String) :
    applyN pre post s parent name index (.Ident a) =
      match callCb pre s parent name index (.Ident a) with
      | .fault e => .fault e
      | .out s1 cont setf =>
        if cont then
          applyPost post s1 parent name index setf (.Ident a)
        else .ok s1 (orSet setf (.Ident a)) := by
  rw [applyN]

theorem applyN_BasicLit {σ : Type} (pre post : Option (Cb σ)) (s : σ) (parent : Node)
    (name : String) (index : Int) (a : String) :
    applyN pre post s parent name index (.BasicLit a) =
      match callCb pre s parent name index (.BasicLit a) with
      | .fault e => .fault e
      | .out s1 cont setf =>
        if cont then
          applyPost post s1 parent name index setf (.BasicLit a)
        else .ok s1 (orSet setf (.BasicLit a)) := by
  rw [applyN]

theorem applyN_ParenExpr {σ : Type} (pre post : Option (Cb σ)) (s : σ) (parent : Node)
    (name : String) (index : Int) (x : Node) :
    applyN pre post s parent name index (.ParenExpr x) =
      match callCb pre s parent name index (.ParenExpr x) with
      | .fault e => .fault e
      | .out s1 cont setf =>
        if cont then
          match applyN pre post s1 (.ParenExpr x) "X" (-1) x with
                  | .fault e => .fault e
                  | .abort s2 x1 => .abort s2 (orSet setf (.ParenExpr x1))
                  | .ok s2 x1 => applyPost post s2 parent name index setf (.ParenExpr x1)
        else .ok s1 (orSet setf (.ParenExpr x)) := by
  rw [applyN]

theorem applyN_SelectorExpr {σ : Type} (pre post : Option (Cb σ)) (s : σ) (parent : Node)
    (name : String) (index : Int) (x : Node) (sel : Node) :
    applyN pre post s parent name index (.SelectorExpr x sel) =
      match callCb pre s parent name index (.SelectorExpr x sel) with
      | .fault e => .fault e
      | .out s1 cont setf =>
        if cont then
          match applyN pre post s1 (.SelectorExpr x sel) "X" (-1) x with
                  | .fault e => .fault e
                  | .abort s2 x1 => .abort s2 (orSet setf (.SelectorExpr x1 sel))
                  | .ok s2 x1 =>
                    match applyN pre post s2 (.SelectorExpr x sel) "Sel" (-1) sel with
                    | .fault e => .fault e
                    | .abort s3 sel1 => .abort s3 (orSet setf (.SelectorExpr x1 sel1))
                    | .ok s3 sel1 => applyPost post s3 parent name index setf (.SelectorExpr x1 sel1)
        else .ok s1 (orSet setf (.SelectorExpr x sel)) := by
  rw [applyN]

theorem applyN_IndexExpr {σ : Type} (pre post : Option (Cb σ)) (s : σ) (parent : Node)
    (name : String) (index : Int) (x : Node) (idx : NodeList) :
    applyN pre post s parent name index (.IndexExpr x idx) =
      match callCb pre s parent name index (.IndexExpr x idx) with
      | .fault e => .fault e
      | .out s1 cont setf =>
        if cont then
          match applyN pre post s1 (.IndexExpr x idx) "X" (-1) x with
                  | .fault e => .fault e
                  | .abort s2 x1 => .abort s2 (orSet setf (.IndexExpr x1 idx))
                  | .ok s2 x1 =>
                    match applyList pre post s2 (.IndexExpr x idx) "Index" 0 idx with
                    | .fault e => .fault e
                    | .abort s3 idx1 => .abort s3 (orSet setf (.IndexExpr x1 idx1))
                    | .ok s3 idx1 => applyPost post s3 parent name index setf (.IndexExpr x1 idx1)
        else .ok s1 (orSet setf (.IndexExpr x idx)) := by
  rw [applyN]

theorem applyN_CallExpr {σ : Type} (pre post : Option (Cb σ)) (s : σ) (parent : Node)
    (name : String) (index : Int) (f : Node) (args : NodeList) :
    applyN pre post s parent name index (.CallExpr f args) =
      match callCb pre s parent name index (.CallExpr f args) with
      | .fault e => .fault e
      | .out s1 cont setf =>
        if cont then
          match applyN pre post s1 (.CallExpr f args) "Fun" (-1) f with
                  | .fault e => .fault e
                  | .abort s2 f1 => .abort s2 (orSet setf (.CallExpr f1 args))
                  | .ok s2 f1 =>
                    match applyList pre post s2 (.CallExpr f args) "Args" 0 args with
                    | .fault e => .fault e
                    | .abort s3 args1 => .abort s3 (orSet setf (.CallExpr f1 args1))
                    | .ok s3 args1 => applyPost post s3 parent name index setf (.CallExpr f1 args1)
        else .ok s1 (orSet setf (.CallExpr f args)) := by
  rw [applyN]

theorem applyN_BinaryExpr {σ : Type} (pre post : Option (Cb σ)) (s : σ) (parent : Node)
    (name : String) (index : Int) (x : Node) (op : String) (y : Node) :
    applyN pre post s parent name index (.BinaryExpr x op y) =
      match callCb pre s parent name index (.BinaryExpr x op y) with
      | .fault e => .fault e
      | .out s1 cont setf =>
        if cont then
          match applyN pre post s1 (.BinaryExpr x op y) "X" (-1) x with
                  | .fault e => .fault e
                  | .abort s2 x1 => .abort s2 (orSet setf (.BinaryExpr x1 op y))
                  | .ok s2 x1 =>
                    match applyN pre post s2 (.BinaryExpr x op y) "Y" (-1) y with
                    | .fault e => .fault e
                    | .abort s3 y1 => .abort s3 (orSet setf (.BinaryExpr x1 op y1))
                    | .ok s3 y1 => applyPost post s3 parent name index setf (.BinaryExpr x1 op y1)
        else .ok s1 (orSet setf (.BinaryExpr x op y)) := by
  rw [applyN]

theorem applyN_CompositeLit {σ : Type} (pre post : Option (Cb σ)) (s : σ) (parent : Node)
    (name : String) (index : Int) (ty : Node) (elts : NodeList) :
    applyN pre post s parent name index (.CompositeLit ty elts) =
      match callCb pre s parent name index (.CompositeLit ty elts) with
      | .fault e => .fault e
      | .out s1 cont setf =>
        if cont then
          match applyN pre post s1 (.CompositeLit ty elts) "Type" (-1) ty with
                  | .fault e => .fault e
                  | .abort s2 ty1 => .abort s2 (orSet setf (.CompositeLit ty1 elts))
                  | .ok s2 ty1 =>
                    match applyList pre post s2 (.CompositeLit ty elts) "Elts" 0 elts with
                    | .fault e => .fault e
                    | .abort s3 elts1 => .abort s3 (orSet setf (.CompositeLit ty1 elts1))
                    | .ok s3 elts1 => applyPost post s3 parent name index setf (.CompositeLit ty1 elts1)
        else .ok s1 (orSet setf (.CompositeLit ty elts)) := by
  rw [applyN]

theorem applyN_Field {σ : Type} (pre post : Option (Cb σ)) (s : σ) (parent : Node)
    (name : String) (index : Int) (names : NodeList) (ty : Node) :
    applyN pre post s parent name index (.Field names ty) =
      match callCb pre s parent name index (.Field names ty) with
      | .fault e => .fault e
      | .out s1 cont setf =>
        if cont then
          match applyList pre post s1 (.Field names ty) "Names" 0 names with
                  | .fault e => .fault e
                  | .abort s2 names1 => .abort s2 (orSet setf (.Field names1 ty))
                  | .ok s2 names1 =>
                    match applyN pre post s2 (.Field names ty) "Type" (-1) ty with
                    | .fault e => .fault e
                    | .abort s3 ty1 => .abort s3 (orSet setf (.Field names1 ty1))
                    | .ok s3 ty1 => applyPost post s3 parent name index setf (.Field names1 ty1)
        else .ok s1 (orSet setf (.Field names ty)) := by
  rw [applyN]

theorem applyN_FieldList {σ : Type} (pre post : Option (Cb σ)) (s : σ) (parent : Node)
    (name : String) (index : Int) (l : NodeList) :
    applyN pre post s parent name index (.FieldList l) =
      match callCb pre s parent name index (.FieldList l) with
      | .fault e => .fault e
      | .out s1 cont setf =>
        if cont then
          match applyList pre post s1 (.FieldList l) "List" 0 l with
                  | .fault e => .fault e
                  | .abort s2 l1 => .abort s2 (orSet setf (.FieldList l1))
                  | .ok s2 l1 => applyPost post s2 parent name index setf (.FieldList l1)
        else .ok s1 (orSet setf (.FieldList l)) := by
  rw [applyN]

theorem applyN_StructType {σ : Type} (pre post : Option (Cb σ)) (s : σ) (parent : Node)
    (name : String) (index : Int) (fields : Node) :
    applyN pre post s parent name index (.StructType fields) =
      match callCb pre s parent name index (.StructType fields) with
      | .fault e => .fault e
      | .out s1 cont setf =>
        if cont then
          match applyN pre post s1 (.StructType fields) "Fields" (-1) fields with
                  | .fault e => .fault e
                  | .abort s2 f1 => .abort s2 (orSet setf (.StructType f1))
                  | .ok s2 f1 => applyPost post s2 parent name index setf (.StructType f1)
        else .ok s1 (orSet setf (.StructType fields)) := by
  rw [applyN]

theorem applyN_FuncType {σ : Type} (pre post : Option (Cb σ)) (s : σ) (parent : Node)
    (name : String) (index : Int) (params : Node) (results : Node) :
    applyN pre post s parent name index (.FuncType params results) =
      match callCb pre s parent name index (.FuncType params results) with
      | .fault e => .fault e
      | .out s1 cont setf =>
        if cont then
          match applyN pre post s1 (.FuncType params results) "Params" (-1) params with
                  | .fault e => .fault e
                  | .abort s2 p1 => .abort s2 (orSet setf (.FuncType p1 results))
                  | .ok s2 p1 =>
                    match applyN pre post s2 (.FuncType params results) "Results" (-1) results with
                    | .fault e => .fault e
                    | .abort s3 r1 => .abort s3 (orSet setf (.FuncType p1 r1))
                    | .ok s3 r1 => applyPost post s3 parent name index setf (.FuncType p1 r1)
        else .ok s1 (orSet setf (.FuncType params results)) := by
  rw [applyN]

theorem applyN_InterfaceType {σ : Type} (pre post : Option (Cb σ)) (s : σ) (parent : Node)
    (name : String) (index : Int) (methods : Node) :
    applyN pre post s parent name index (.InterfaceType methods) =
      match callCb pre s parent name index (.InterfaceType methods) with
      | .fault e => .fault e
      | .out s1 cont setf =>
        if cont then
          match applyN pre post s1 (.InterfaceType methods) "Methods" (-1) methods with
                  | .fault e => .fault e
                  | .abort s2 m1 => .abort s2 (orSet setf (.InterfaceType m1))
                  | .ok s2 m1 => applyPost post s2 parent name index setf (.InterfaceType m1)
        else .ok s1 (orSet setf (.InterfaceType methods)) := by
  rw [applyN]

theorem applyN_ExprStmt {σ : Type} (pre post : Option (Cb σ)) (s : σ) (parent : Node)
    (name : String) (index : Int) (x : Node) :
    applyN pre post s parent name index (.ExprStmt x) =
      match callCb pre s parent name index (.ExprStmt x) with
      | .fault e => .fault e
      | .out s1 cont setf =>
        if cont then
          match applyN pre post s1 (.ExprStmt x) "X" (-1) x with
                  | .fault e => .fault e
                  | .abort s2 x1 => .abort s2 (orSet setf (.ExprStmt x1))
                  | .ok s2 x1 => applyPost post s2 parent name index setf (.ExprStmt x1)
        else .ok s1 (orSet setf (.ExprStmt x)) := by
  rw [applyN]

theorem applyN_AssignStmt {σ : Type} (pre post : Option (Cb σ)) (s : σ) (parent : Node)
    (name : String) (index : Int) (lhs : NodeList) (rhs : NodeList) :
    applyN pre post s parent name index (.AssignStmt lhs rhs) =
      match callCb pre s parent name index (.AssignStmt lhs rhs) with
      | .fault e => .fault e
      | .out s1 cont setf =>
        if cont then
          match applyList pre post s1 (.AssignStmt lhs rhs) "Lhs" 0 lhs with
                  | .fault e => .fault e
                  | .abort s2 lhs1 => .abort s2 (orSet setf (.AssignStmt lhs1 rhs))
                  | .ok s2 lhs1 =>
                    match applyList pre post s2 (.AssignStmt lhs rhs) "Rhs" 0 rhs with
                    | .fault e => .fault e
                    | .abort s3 rhs1 => .abort s3 (orSet setf (.AssignStmt lhs1 rhs1))
                    | .ok s3 rhs1 => applyPost post s3 parent name index setf (.AssignStmt lhs1 rhs1)
        else .ok s1 (orSet setf (.AssignStmt lhs rhs)) := by
  rw [applyN]

theorem applyN_BlockStmt {σ : Type} (pre post : Option (Cb σ)) (s : σ) (parent : Node)
    (name : String) (index : Int) (l : NodeList) :
    applyN pre post s parent name index (.BlockStmt l) =
      match callCb pre s parent name index (.BlockStmt l) with
      | .fault e => .fault e
      | .out s1 cont setf =>
        if cont then
          match applyList pre post s1 (.BlockStmt l) "List" 0 l with
                  | .fault e => .fault e
                  | .abort s2 l1 => .abort s2 (orSet setf (.BlockStmt l1))
                  | .ok s2 l1 => applyPost post s2 parent name index setf (.BlockStmt l1)
        else .ok s1 (orSet setf (.BlockStmt l)) := by
  rw [applyN]

theorem applyN_ReturnStmt {σ : Type} (pre post : Option (Cb σ)) (s : σ) (parent : Node)
    (name : String) (index : Int) (results : NodeList) :
    applyN pre post s parent name index (.ReturnStmt results) =
      match callCb pre s parent name index (.ReturnStmt results) with
      | .fault e => .fault e
      | .out s1 cont setf =>
        if cont then
          match applyList pre post s1 (.ReturnStmt results) "Results" 0 results with
                  | .fault e => .fault e
                  | .abort s2 r1 => .abort s2 (orSet setf (.ReturnStmt r1))
                  | .ok s2 r1 => applyPost post s2 parent name index setf (.ReturnStmt r1)
        else .ok s1 (orSet setf (.ReturnStmt results)) := by
  rw [applyN]

theorem applyN_GenDecl {σ : Type} (pre post : Option (Cb σ)) (s : σ) (parent : Node)
    (name : String) (index : Int) (specs : NodeList) :
    applyN pre post s parent name index (.GenDecl specs) =
      match callCb pre s parent name index (.GenDecl specs) with
      | .fault e => .fault e
      | .out s1 cont setf =>
        if cont then
          match applyList pre post s1 (.GenDecl specs) "Specs" 0 specs with
                  | .fault e => .fault e
                  | .abort s2 sp1 => .abort s2 (orSet setf (.GenDecl sp1))
                  | .ok s2 sp1 => applyPost post s2 parent name index setf (.GenDecl sp1)
        else .ok s1 (orSet setf (.GenDecl specs)) := by
  rw [applyN]

theorem applyN_TypeSpec {σ : Type} (pre post : Option (Cb σ)) (s : σ) (parent : Node)
    (name : String) (index : Int) (nm : Node) (ty : Node) :
    applyN pre post s parent name index (.TypeSpec nm ty) =
      match callCb pre s parent name index (.TypeSpec nm ty) with
      | .fault e => .fault e
      | .out s1 cont setf =>
        if cont then
          match applyN pre post s1 (.TypeSpec nm ty) "Name" (-1) nm with
                  | .fault e => .fault e
                  | .abort s2 nm1 => .abort s2 (orSet setf (.TypeSpec nm1 ty))
                  | .ok s2 nm1 =>
                    match applyN pre post s2 (.TypeSpec nm ty) "Type" (-1) ty with
                    | .fault e => .fault e
                    | .abort s3 ty1 => .abort s3 (orSet setf (.TypeSpec nm1 ty1))
                    | .ok s3 ty1 => applyPost post s3 parent name index setf (.TypeSpec nm1 ty1)
        else .ok s1 (orSet setf (.TypeSpec nm ty)) := by
  rw [applyN]

theorem applyN_FuncDecl {σ : Type} (pre post : Option (Cb σ)) (s : σ) (parent : Node)
    (name : String) (index : Int) (recv : Node) (nm : Node) (ty : Node) (body : Node) :
    applyN pre post s parent name index (.FuncDecl recv nm ty body) =
      match callCb pre s parent name index (.FuncDecl recv nm ty body) with
      | .fault e => .fault e
      | .out s1 cont setf =>
        if cont then
          match applyN pre post s1 (.FuncDecl recv nm ty body) "Recv" (-1) recv with
                  | .fault e => .fault e
                  | .abort s2 recv1 => .abort s2 (orSet setf (.FuncDecl recv1 nm ty body))
                  | .ok s2 recv1 =>
                    match applyN pre post s2 (.FuncDecl recv nm ty body) "Name" (-1) nm with
                    | .fault e => .fault e
                    | .abort s3 nm1 => .abort s3 (orSet setf (.FuncDecl recv1 nm1 ty body))
                    | .ok s3 nm1 =>
                      match applyN pre post s3 (.FuncDecl recv nm ty body) "Type" (-1) ty with
                      | .fault e => .fault e
                      | .abort s4 ty1 => .abort s4 (orSet setf (.FuncDecl recv1 nm1 ty1 body))
                      | .ok s4 ty1 =>
                        match applyN pre post s4 (.FuncDecl recv nm ty body) "Body" (-1) body with
                        | .fault e => .fault e
                        | .abort s5 b1 => .abort s5 (orSet setf (.FuncDecl recv1 nm1 ty1 b1))
                        | .ok s5 b1 => applyPost post s5 parent name index setf (.FuncDecl recv1 nm1 ty1 b1)
        else .ok s1 (orSet setf (.FuncDecl recv nm ty body)) := by
  rw [applyN]

theorem applyN_File {σ : Type} (pre post : Option (Cb σ)) (s : σ) (parent : Node)
    (name : String) (index : Int) (nm : Node) (decls : NodeList) :
    applyN pre post s parent name index (.File nm decls) =
      match callCb pre s parent name index (.File nm decls) with
      | .fault e => .fault e
      | .out s1 cont setf =>
        if cont then
          match applyN pre post s1 (.File nm decls) "Name" (-1) nm with
                  | .fault e => .fault e
                  | .abort s2 nm1 => .abort s2 (orSet setf (.File nm1 decls))
                  | .ok s2 nm1 =>
                    match applyList pre post s2 (.File nm decls) "Decls" 0 decls with
                    | .fault e => .fault e
                    | .abort s3 d1 => .abort s3 (orSet setf (.File nm1 d1))
                    | .ok s3 d1 => applyPost post s3 parent name index setf (.File nm1 d1)
        else .ok s1 (orSet setf (.File nm decls)) := by
  rw [applyN]

theorem applyList_nil {σ : Type} (pre post : Option (Cb σ)) (s : σ) (parent : Node)
    (name : String) (index : Int) :
    applyList pre post s parent name index .nil = .ok s .nil := by
  rw [applyList]

theorem applyList_cons {σ : Type} (pre post : Option (Cb σ)) (s : σ) (parent : Node)
    (name : String) (index : Int) (x : Node) (xs : NodeList) :
    applyList pre post s parent name index (.cons x xs) =
      match applyN pre post s parent name index x with
      | .fault e => .fault e
      | .abort s1 x1 => .abort s1 (.cons x1 xs)
      | .ok s1 x1 =>
        match applyList pre post s1 parent name (index + 1) xs with
        | .fault e => .fault e
        | .abort s2 xs1 => .abort s2 (.cons x1 xs1)
        | .ok s2 xs1 => .ok s2 (.cons x1 xs1) := by
  rw [applyList]

theorem stepOK_imp {s s2 : Bool} {a b : Nat} {p q : Prop}
    (h : stepOK s s2 a b p) (himp : p → q) : stepOK s s2 a b q :=
  ⟨h.1, h.2.1, fun h0 => ⟨(h.2.2.1 h0).1, himp (h.2.2.1 h0).2⟩, h.2.2.2⟩

theorem stepOK_shift {s s2 : Bool} {a b : Nat} {p q : Prop} (k : Nat) {a2 b2 : Nat}
    (h : stepOK s s2 a b p) (ha : a2 = k + a) (hb : b2 = k + b) (himp : p → q) :
    stepOK s s2 a2 b2 q := by
  subst ha; subst hb; exact stepOK_lift h himp

/-- The sweep's `pre` callback either does nothing (returns true having
committed no replacement and left the progress flag alone), or — exactly on a
single-target, single-source assignment to an index expression for which the
element-write lookup succeeds — replaces the assignment with the built call
statement and sets progress. -/
theorem sweepPre_out {T : Type} (lookup : Option T → String → Bool)
    (tmap : Node → Option T) (s : Bool) (parent : Node) (name : String)
    (index : Int) (n : Node) :
    sweepPre lookup tmap s parent name index n = .out s true none ∨
    ∃ lx lidx rhs0 r,
      n = .AssignStmt (.cons (.IndexExpr lx lidx) .nil) (.cons rhs0 .nil) ∧
      rewriteOp lookup tmap lx "[]=" (lidx.append (.cons rhs0 .nil)) = some r ∧
      sweepPre lookup tmap s parent name index n = .out true true (some (.ExprStmt r)) := by
  cases n
  case AssignStmt lhs rhs =>
    cases lhs with
    | nil => left; rfl
    | cons lhs0 lhsT =>
      cases lhsT with
      | cons a b => left; rfl
      | nil =>
        cases rhs with
        | nil => left; rfl
        | cons rhs0 rhsT =>
          cases rhsT with
          | cons a b => left; rfl
          | nil =>
            cases lhs0
            case IndexExpr lx lidx =>
              rcases hr : rewriteOp lookup tmap lx "[]=" (lidx.append (.cons rhs0 .nil)) with _ | r
              · left; simp [sweepPre, hr]
              · right
                exact ⟨lx, lidx, rhs0, r, rfl, hr, by simp [sweepPre, hr]⟩
            all_goals (left; rfl)
  all_goals (left; rfl)

mutual
/-- The desugaring sweep never aborts or faults; across any subtree the
operator-node count never grows, the progress flag is monotone, a no-progress
outcome means the subtree is returned untouched, and newly arisen progress
strictly decreases the operator-node count. -/
theorem sweepAuxN {T : Type} (lookup : Option T → String → Bool)
    (tmap : Node → Option T) (n : Node) :
    ∀ (s : Bool) (parent : Node) (name : String) (index : Int),
    ∃ s2 v,
      applyN (some (sweepPre lookup tmap)) (some (sweepPost lookup tmap)) s parent name index n
        = .ok s2 v ∧ stepOK s s2 (opCount n) (opCount v) (v = n) := by
  cases n with
  | nil =>
    intro s parent name index
    refine ⟨s, .nil, ?_, stepOK_base rfl⟩
    rw [applyN_nil]
    simp [callCb, sweepPre, sweepPost, applyPost, orSet]
  | Ident a =>
    intro s parent name index
    refine ⟨s, .Ident a, ?_, stepOK_base rfl⟩
    rw [applyN_Ident]
    simp [callCb, sweepPre, sweepPost, applyPost, orSet]
  | BasicLit a =>
    intro s parent name index
    refine ⟨s, .BasicLit a, ?_, stepOK_base rfl⟩
    rw [applyN_BasicLit]
    simp [callCb, sweepPre, sweepPost, applyPost, orSet]
  | ParenExpr x =>
    intro s parent name index
    obtain ⟨sx, a1, hx, okx⟩ := sweepAuxN lookup tmap x s (.ParenExpr x) "X" (-1)
    refine ⟨sx, .ParenExpr a1, ?_, ?_⟩
    · rw [applyN_ParenExpr]
      simp [callCb, sweepPre, hx, applyPost, sweepPost, orSet]
    · simp only [opCount, opCountL]
      exact stepOK_imp okx (by rintro rfl; rfl)
  | SelectorExpr x sel =>
    intro s parent name index
    obtain ⟨sx, a1, hx, okx⟩ := sweepAuxN lookup tmap x s (.SelectorExpr x sel) "X" (-1)
    obtain ⟨sy, b1, hy, oky⟩ := sweepAuxN lookup tmap sel sx (.SelectorExpr x sel) "Sel" (-1)
    refine ⟨sy, .SelectorExpr a1 b1, ?_, ?_⟩
    · rw [applyN_SelectorExpr]
      simp [callCb, sweepPre, hx, hy, applyPost, sweepPost, orSet]
    · simp only [opCount, opCountL]
      exact stepOK_imp (stepOK_comp okx oky) (by rintro ⟨rfl, rfl⟩; rfl)
  | IndexExpr x idx =>
    intro s parent name index
    obtain ⟨sx, x1, hx, okx⟩ := sweepAuxN lookup tmap x s (.IndexExpr x idx) "X" (-1)
    obtain ⟨sy, idx1, hy, oky, hlen⟩ := sweepAuxL lookup tmap idx sx (.IndexExpr x idx) "Index" 0
    have hxy := stepOK_comp okx oky
    rcases hr : rewriteOp lookup tmap x1 "[]" idx1 with _ | c
    · refine ⟨sy, .IndexExpr x1 idx1, ?_, ?_⟩
      · rw [applyN_IndexExpr]
        simp [callCb, sweepPre, hx, hy, applyPost, sweepPost, hr, orSet]
      · simp only [opCount, opCountL]
        exact stepOK_shift 1 hxy (by omega) (by omega) (by rintro ⟨rfl, rfl⟩; rfl)
    · obtain ⟨m, rfl⟩ := rewriteOp_some hr
      refine ⟨true, .CallExpr (.SelectorExpr x1 (.Ident m)) idx1, ?_, ?_⟩
      · rw [applyN_IndexExpr]
        simp [callCb, sweepPre, hx, hy, applyPost, sweepPost, hr, orSet]
      · simp only [opCount, opCountL]
        have h1 := hxy.1
        refine ⟨by omega, fun _ => rfl, fun h => by simp at h, fun _ _ => by omega⟩
  | CallExpr f args =>
    intro s parent name index
    obtain ⟨sx, a1, hx, okx⟩ := sweepAuxN lookup tmap f s (.CallExpr f args) "Fun" (-1)
    obtain ⟨sy, b1, hy, oky, hleny⟩ := sweepAuxL lookup tmap args sx (.CallExpr f args) "Args" 0
    refine ⟨sy, .CallExpr a1 b1, ?_, ?_⟩
    · rw [applyN_CallExpr]
      simp [callCb, sweepPre, hx, hy, applyPost, sweepPost, orSet]
    · simp only [opCount, opCountL]
      exact stepOK_imp (stepOK_comp okx oky) (by rintro ⟨rfl, rfl⟩; rfl)
  | BinaryExpr x op y =>
    intro s parent name index
    obtain ⟨sx, x1, hx, okx⟩ := sweepAuxN lookup tmap x s (.BinaryExpr x op y) "X" (-1)
    obtain ⟨sy, y1, hy, oky⟩ := sweepAuxN lookup tmap y sx (.BinaryExpr x op y) "Y" (-1)
    have hxy := stepOK_comp okx oky
    rcases hr : rewriteOp lookup tmap x1 op (.cons y1 .nil) with _ | c
    · refine ⟨sy, .BinaryExpr x1 op y1, ?_, ?_⟩
      · rw [applyN_BinaryExpr]
        simp [callCb, sweepPre, hx, hy, applyPost, sweepPost, hr, orSet]
      · simp only [opCount]
        exact stepOK_shift 1 hxy (by omega) (by omega) (by rintro ⟨rfl, rfl⟩; rfl)
    · obtain ⟨m, rfl⟩ := rewriteOp_some hr
      refine ⟨true, .CallExpr (.SelectorExpr x1 (.Ident m)) (.cons y1 .nil), ?_, ?_⟩
      · rw [applyN_BinaryExpr]
        simp [callCb, sweepPre, hx, hy, applyPost, sweepPost, hr, orSet]
      · simp only [opCount, opCountL]
        have h1 := hxy.1
        refine ⟨by omega, fun _ => rfl, fun h => by simp at h, fun _ _ => by omega⟩
  | CompositeLit ty elts =>
    intro s parent name index
    obtain ⟨sx, a1, hx, okx⟩ := sweepAuxN lookup tmap ty s (.CompositeLit ty elts) "Type" (-1)
    obtain ⟨sy, b1, hy, oky, hleny⟩ := sweepAuxL lookup tmap elts sx (.CompositeLit ty elts) "Elts" 0
    refine ⟨sy, .CompositeLit a1 b1, ?_, ?_⟩
    · rw [applyN_CompositeLit]
      simp [callCb, sweepPre, hx, hy, applyPost, sweepPost, orSet]
    · simp only [opCount, opCountL]
      exact stepOK_imp (stepOK_comp okx oky) (by rintro ⟨rfl, rfl⟩; rfl)
  | Field names ty =>
    intro s parent name index
    obtain ⟨sx, a1, hx, okx, hlenx⟩ := sweepAuxL lookup tmap names s (.Field names ty) "Names" 0
    obtain ⟨sy, b1, hy, oky⟩ := sweepAuxN lookup tmap ty sx (.Field names ty) "Type" (-1)
    refine ⟨sy, .Field a1 b1, ?_, ?_⟩
    · rw [applyN_Field]
      simp [callCb, sweepPre, hx, hy, applyPost, sweepPost, orSet]
    · simp only [opCount, opCountL]
      exact stepOK_imp (stepOK_comp okx oky) (by rintro ⟨rfl, rfl⟩; rfl)
  | FieldList l =>
    intro s parent name index
    obtain ⟨sx, a1, hx, okx, hlenx⟩ := sweepAuxL lookup tmap l s (.FieldList l) "List" 0
    refine ⟨sx, .FieldList a1, ?_, ?_⟩
    · rw [applyN_FieldList]
      simp [callCb, sweepPre, hx, applyPost, sweepPost, orSet]
    · simp only [opCount, opCountL]
      exact stepOK_imp okx (by rintro rfl; rfl)
  | StructType fields =>
    intro s parent name index
    obtain ⟨sx, a1, hx, okx⟩ := sweepAuxN lookup tmap fields s (.StructType fields) "Fields" (-1)
    refine ⟨sx, .StructType a1, ?_, ?_⟩
    · rw [applyN_StructType]
      simp [callCb, sweepPre, hx, applyPost, sweepPost, orSet]
    · simp only [opCount, opCountL]
      exact stepOK_imp okx (by rintro rfl; rfl)
  | FuncType params results =>
    intro s parent name index
    obtain ⟨sx, a1, hx, okx⟩ := sweepAuxN lookup tmap params s (.FuncType params results) "Params" (-1)
    obtain ⟨sy, b1, hy, oky⟩ := sweepAuxN lookup tmap results sx (.FuncType params results) "Results" (-1)
    refine ⟨sy, .FuncType a1 b1, ?_, ?_⟩
    · rw [applyN_FuncType]
      simp [callCb, sweepPre, hx, hy, applyPost, sweepPost, orSet]
    · simp only [opCount, opCountL]
      exact stepOK_imp (stepOK_comp okx oky) (by rintro ⟨rfl, rfl⟩; rfl)
  | InterfaceType methods =>
    intro s parent name index
    obtain ⟨sx, a1, hx, okx⟩ := sweepAuxN lookup tmap methods s (.InterfaceType methods) "Methods" (-1)
    refine ⟨sx, .InterfaceType a1, ?_, ?_⟩
    · rw [applyN_InterfaceType]
      simp [callCb, sweepPre, hx, applyPost, sweepPost, orSet]
    · simp only [opCount, opCountL]
      exact stepOK_imp okx (by rintro rfl; rfl)
  | ExprStmt x =>
    intro s parent name index
    obtain ⟨sx, a1, hx, okx⟩ := sweepAuxN lookup tmap x s (.ExprStmt x) "X" (-1)
    refine ⟨sx, .ExprStmt a1, ?_, ?_⟩
    · rw [applyN_ExprStmt]
      simp [callCb, sweepPre, hx, applyPost, sweepPost, orSet]
    · simp only [opCount, opCountL]
      exact stepOK_imp okx (by rintro rfl; rfl)
  | AssignStmt lhs rhs =>
    intro s parent name index
    rcases sweepPre_out lookup tmap s parent name index (.AssignStmt lhs rhs) with
      hpre | ⟨lx, lidx, rhs0, r, heq, hrw, hpre⟩
    · obtain ⟨s2, lhs1, hl, okl, hlen1⟩ := sweepAuxL lookup tmap lhs s (.AssignStmt lhs rhs) "Lhs" 0
      obtain ⟨s3, rhs1, hr2, okr, hlen2⟩ := sweepAuxL lookup tmap rhs s2 (.AssignStmt lhs rhs) "Rhs" 0
      refine ⟨s3, .AssignStmt lhs1 rhs1, ?_, ?_⟩
      · rw [applyN_AssignStmt]
        simp [callCb, hpre, hl, hr2, applyPost, sweepPost, orSet]
      · simp only [opCount]
        exact stepOK_imp (stepOK_comp okl okr) (by rintro ⟨rfl, rfl⟩; rfl)
    · injection heq with h1 h2
      subst h1; subst h2
      obtain ⟨s2, lhs1, hl, okl, hlen1⟩ := sweepAuxL lookup tmap
        (.cons (.IndexExpr lx lidx) .nil) true
        (.AssignStmt (.cons (.IndexExpr lx lidx) .nil) (.cons rhs0 .nil)) "Lhs" 0
      obtain ⟨s3, rhs1, hr2, okr, hlen2⟩ := sweepAuxL lookup tmap (.cons rhs0 .nil) s2
        (.AssignStmt (.cons (.IndexExpr lx lidx) .nil) (.cons rhs0 .nil)) "Rhs" 0
      obtain ⟨m, rfl⟩ := rewriteOp_some hrw
      have hs2 : s2 = true := okl.2.1 rfl
      have hs3 : s3 = true := okr.2.1 hs2
      subst hs3
      refine ⟨true, .ExprStmt (.CallExpr (.SelectorExpr lx (.Ident m))
        (lidx.append (.cons rhs0 .nil))), ?_, ?_⟩
      · rw [applyN_AssignStmt]
        simp [callCb, hpre, hl, hr2, applyPost, sweepPost, orSet]
      · simp only [opCount, opCountL, opCountL_append]
        refine ⟨by omega, fun _ => rfl, fun h => by simp at h, fun _ _ => by omega⟩
  | BlockStmt l =>
    intro s parent name index
    obtain ⟨sx, a1, hx, okx, hlenx⟩ := sweepAuxL lookup tmap l s (.BlockStmt l) "List" 0
    refine ⟨sx, .BlockStmt a1, ?_, ?_⟩
    · rw [applyN_BlockStmt]
      simp [callCb, sweepPre, hx, applyPost, sweepPost, orSet]
    · simp only [opCount, opCountL]
      exact stepOK_imp okx (by rintro rfl; rfl)
  | ReturnStmt results =>
    intro s parent name index
    obtain ⟨sx, a1, hx, okx, hlenx⟩ := sweepAuxL lookup tmap results s (.ReturnStmt results) "Results" 0
    refine ⟨sx, .ReturnStmt a1, ?_, ?_⟩
    · rw [applyN_ReturnStmt]
      simp [callCb, sweepPre, hx, applyPost, sweepPost, orSet]
    · simp only [opCount, opCountL]
      exact stepOK_imp okx (by rintro rfl; rfl)
  | GenDecl specs =>
    intro s parent name index
    obtain ⟨sx, a1, hx, okx, hlenx⟩ := sweepAuxL lookup tmap specs s (.GenDecl specs) "Specs" 0
    refine ⟨sx, .GenDecl a1, ?_, ?_⟩
    · rw [applyN_GenDecl]
      simp [callCb, sweepPre, hx, applyPost, sweepPost, orSet]
    · simp only [opCount, opCountL]
      exact stepOK_imp okx (by rintro rfl; rfl)
  | TypeSpec nm ty =>
    intro s parent name index
    obtain ⟨sx, a1, hx, okx⟩ := sweepAuxN lookup tmap nm s (.TypeSpec nm ty) "Name" (-1)
    obtain ⟨sy, b1, hy, oky⟩ := sweepAuxN lookup tmap ty sx (.TypeSpec nm ty) "Type" (-1)
    refine ⟨sy, .TypeSpec a1 b1, ?_, ?_⟩
    · rw [applyN_TypeSpec]
      simp [callCb, sweepPre, hx, hy, applyPost, sweepPost, orSet]
    · simp only [opCount, opCountL]
      exact stepOK_imp (stepOK_comp okx oky) (by rintro ⟨rfl, rfl⟩; rfl)
  | FuncDecl recv nm ty body =>
    intro s parent name index
    obtain ⟨sr, recv1, h1, ok1⟩ := sweepAuxN lookup tmap recv s (.FuncDecl recv nm ty body) "Recv" (-1)
    obtain ⟨sn, nm1, h2, ok2⟩ := sweepAuxN lookup tmap nm sr (.FuncDecl recv nm ty body) "Name" (-1)
    obtain ⟨st, ty1, h3, ok3⟩ := sweepAuxN lookup tmap ty sn (.FuncDecl recv nm ty body) "Type" (-1)
    obtain ⟨sb, body1, h4, ok4⟩ := sweepAuxN lookup tmap body st (.FuncDecl recv nm ty body) "Body" (-1)
    refine ⟨sb, .FuncDecl recv1 nm1 ty1 body1, ?_, ?_⟩
    · rw [applyN_FuncDecl]
      simp [callCb, sweepPre, h1, h2, h3, h4, applyPost, sweepPost, orSet]
    · simp only [opCount]
      exact stepOK_imp (stepOK_comp (stepOK_comp (stepOK_comp ok1 ok2) ok3) ok4)
        (by rintro ⟨⟨⟨rfl, rfl⟩, rfl⟩, rfl⟩; rfl)
  | File nm decls =>
    intro s parent name index
    obtain ⟨sx, a1, hx, okx⟩ := sweepAuxN lookup tmap nm s (.File nm decls) "Name" (-1)
    obtain ⟨sy, b1, hy, oky, hleny⟩ := sweepAuxL lookup tmap decls sx (.File nm decls) "Decls" 0
    refine ⟨sy, .File a1 b1, ?_, ?_⟩
    · rw [applyN_File]
      simp [callCb, sweepPre, hx, hy, applyPost, sweepPost, orSet]
    · simp only [opCount, opCountL]
      exact stepOK_imp (stepOK_comp okx oky) (by rintro ⟨rfl, rfl⟩; rfl)
/-- The sweep on a slice slot: as `sweepAuxN`, and the slot keeps its
length. -/
theorem sweepAuxL {T : Type} (lookup : Option T → String → Bool)
    (tmap : Node → Option T) (l : NodeList) :
    ∀ (s : Bool) (parent : Node) (name : String) (index : Int),
    ∃ s2 l2,
      applyList (some (sweepPre lookup tmap)) (some (sweepPost lookup tmap)) s parent name index l
        = .ok s2 l2 ∧ stepOK s s2 (opCountL l) (opCountL l2) (l2 = l) ∧
          l2.length = l.length := by
  cases l with
  | nil =>
    intro s parent name index
    exact ⟨s, .nil, applyList_nil _ _ _ _ _ _, stepOK_base rfl, rfl⟩
  | cons x xs =>
    intro s parent name index
    obtain ⟨sx, x1, hx, okx⟩ := sweepAuxN lookup tmap x s parent name index
    obtain ⟨s2, xs1, hxs, okxs, hlen⟩ := sweepAuxL lookup tmap xs sx parent name (index + 1)
    refine ⟨s2, .cons x1 xs1, ?_, ?_, ?_⟩
    · rw [applyList_cons]
      simp only [hx, hxs]
    · simp only [opCountL]
      exact stepOK_imp (stepOK_comp okx okxs) (by rintro ⟨rfl, rfl⟩; rfl)
    · simp only [NodeList.length, hlen]
end

/-! ## The fixed-point loop terminates -/

mutual
/-- The claim's node count dominates the plain binary/index count. -/
theorem claimCount_ge (n : Node) : opCount n ≤ claimCount n := by
  cases n with
  | nil =>
    simp [opCount, claimCount]
  | Ident a =>
    simp [opCount, claimCount]
  | BasicLit a =>
    simp [opCount, claimCount]
  | ParenExpr x =>
    have h0 := claimCount_ge x
    simp only [opCount, claimCount]
    omega
  | SelectorExpr x sel =>
    have h0 := claimCount_ge x
    have h1 := claimCount_ge sel
    simp only [opCount, claimCount]
    omega
  | IndexExpr x idx =>
    have h0 := claimCount_ge x
    have h1 := claimCountL_ge idx
    simp only [opCount, claimCount]
    omega
  | CallExpr f args =>
    have h0 := claimCount_ge f
    have h1 := claimCountL_ge args
    simp only [opCount, claimCount]
    omega
  | BinaryExpr x op y =>
    have h0 := claimCount_ge x
    have h1 := claimCount_ge y
    simp only [opCount, claimCount]
    omega
  | CompositeLit ty elts =>
    have h0 := claimCount_ge ty
    have h1 := claimCountL_ge elts
    simp only [opCount, claimCount]
    omega
  | Field names ty =>
    have h0 := claimCountL_ge names
    have h1 := claimCount_ge ty
    simp only [opCount, claimCount]
    omega
  | FieldList l =>
    have h0 := claimCountL_ge l
    simp only [opCount, claimCount]
    omega
  | StructType fields =>
    have h0 := claimCount_ge fields
    simp only [opCount, claimCount]
    omega
  | FuncType params results =>
    have h0 := claimCount_ge params
    have h1 := claimCount_ge results
    simp only [opCount, claimCount]
    omega
  | InterfaceType methods =>
    have h0 := claimCount_ge methods
    simp only [opCount, claimCount]
    omega
  | ExprStmt x =>
    have h0 := claimCount_ge x
    simp only [opCount, claimCount]
    omega
  | AssignStmt lhs rhs =>
    have h0 := claimCountL_ge lhs
    have h1 := claimCountL_ge rhs
    simp only [opCount, claimCount]
    split <;> omega
  | BlockStmt l =>
    have h0 := claimCountL_ge l
    simp only [opCount, claimCount]
    omega
  | ReturnStmt results =>
    have h0 := claimCountL_ge results
    simp only [opCount, claimCount]
    omega
  | GenDecl specs =>
    have h0 := claimCountL_ge specs
    simp only [opCount, claimCount]
    omega
  | TypeSpec nm ty =>
    have h0 := claimCount_ge nm
    have h1 := claimCount_ge ty
    simp only [opCount, claimCount]
    omega
  | FuncDecl recv nm ty body =>
    have h0 := claimCount_ge recv
    have h1 := claimCount_ge nm
    have h2 := claimCount_ge ty
    have h3 := claimCount_ge body
    simp only [opCount, claimCount]
    omega
  | File nm decls =>
    have h0 := claimCount_ge nm
    have h1 := claimCountL_ge decls
    simp only [opCount, claimCount]
    omega
theorem claimCountL_ge (l : NodeList) : opCountL l ≤ claimCountL l := by
  cases l with
  | nil => simp [opCountL, claimCountL]
  | cons x xs =>
    have h1 := claimCount_ge x
    have h2 := claimCountL_ge xs
    simp only [opCountL, claimCountL]
    omega
end

/-- With the progress flag down, the loop stops without sweeping (mogo.go:65:
`err == nil || !progress` breaks). -/
theorem mogoLoop_stop {T : Type} (R : Resolver T) (fuel : Nat) (t : Node) :
    mogoLoop R fuel false t = (t, []) := by
  cases fuel with
  | zero => rfl
  | succ fuel => simp [mogoLoop]

/-- Every executed sweep except possibly the last made progress: the loop
only runs another sweep after a sweep whose progress flag was set. -/
theorem mogoLoop_flags {T : Type} (R : Resolver T) :
    ∀ (fuel : Nat) (p : Bool) (t : Node) (i : Nat),
      i + 1 < ((mogoLoop R fuel p t).2).length →
      ((mogoLoop R fuel p t).2).getD i false = true := by
  intro fuel
  induction fuel with
  | zero => intro p t i h; simp [mogoLoop] at h
  | succ fuel ih =>
    intro p t i h
    cases hc : (R.typecheck t).2 with
    | true => simp [mogoLoop, hc] at h
    | false =>
      cases p with
      | false => simp [mogoLoop, hc] at h
      | true =>
        obtain ⟨s1, t1, happ, ok1⟩ :=
          sweepAuxN R.lookup (R.typecheck t).1 t false .nil "Node" (-1)
        rw [show mogoLoop R (fuel + 1) true t =
            ((mogoLoop R fuel s1 t1).1, s1 :: (mogoLoop R fuel s1 t1).2) by
          simp [mogoLoop, hc, happ]]
        rw [show mogoLoop R (fuel + 1) true t =
            ((mogoLoop R fuel s1 t1).1, s1 :: (mogoLoop R fuel s1 t1).2) by
          simp [mogoLoop, hc, happ]] at h
        cases i with
        | zero =>
          cases hs : s1 with
          | true => simp
          | false =>
            rw [hs, mogoLoop_stop] at h
            simp at h
        | succ i =>
          simp only [List.getD, List.get?, List.length_cons] at h ⊢
          exact ih s1 t1 i (by simpa using h)

/-- Termination of the fixed-point loop: with fuel at least `opCount t + 2`
the loop reaches its break condition on its own — the result no longer
depends on the fuel — and it executes at most `opCount t + 1` sweeps (each
sweep but the last strictly decreases the operator-node count). -/
theorem mogoLoop_bound {T : Type} (R : Resolver T) :
    ∀ (k : Nat) (t : Node), opCount t ≤ k →
      ∀ fuel, k + 2 ≤ fuel →
        mogoLoop R fuel true t = mogoLoop R (k + 2) true t ∧
        ((mogoLoop R fuel true t).2).length ≤ opCount t + 1 := by
  intro k
  induction k with
  | zero =>
    intro t ht fuel hf
    match fuel, hf with
    | fuel + 2, _ =>
      cases hc : (R.typecheck t).2 with
      | true => constructor <;> simp [mogoLoop, hc]
      | false =>
        obtain ⟨s1, t1, happ, ok1⟩ :=
          sweepAuxN R.lookup (R.typecheck t).1 t false .nil "Node" (-1)
        have hs1 : s1 = false := by
          cases hs : s1 with
          | false => rfl
          | true =>
            have := ok1.2.2.2 rfl hs
            omega
        have ht1 : t1 = t := (ok1.2.2.1 hs1).2
        subst hs1
        constructor
        · simp [mogoLoop, hc, happ, mogoLoop_stop]
        · simp [mogoLoop, hc, happ, mogoLoop_stop]
  | succ k ih =>
    intro t ht fuel hf
    match fuel, hf with
    | fuel + 2, _ =>
      cases hc : (R.typecheck t).2 with
      | true => constructor <;> simp [mogoLoop, hc]
      | false =>
        obtain ⟨s1, t1, happ, ok1⟩ :=
          sweepAuxN R.lookup (R.typecheck t).1 t false .nil "Node" (-1)
        cases hs : s1 with
        | false =>
          subst hs
          constructor
          · simp [mogoLoop, hc, happ, mogoLoop_stop]
          · simp [mogoLoop, hc, happ, mogoLoop_stop]
        | true =>
          subst hs
          have hlt : opCount t1 < opCount t := ok1.2.2.2 rfl rfl
          have ht1k : opCount t1 ≤ k := by omega
          have IH1 := ih t1 ht1k (fuel + 1) (by omega)
          have IH2 := ih t1 ht1k (k + 2) (by omega)
          have heq1 : mogoLoop R (fuel + 2) true t =
              ((mogoLoop R (fuel + 1) true t1).1, true :: (mogoLoop R (fuel + 1) true t1).2) := by
            simp [mogoLoop, hc, happ]
          have heq2 : mogoLoop R (k + 1 + 2) true t =
              ((mogoLoop R (k + 2) true t1).1, true :: (mogoLoop R (k + 2) true t1).2) := by
            simp [mogoLoop, hc, happ]
          constructor
          · rw [heq1, heq2, IH1.1, IH2.1]
          · rw [heq1]
            have := IH1.2
            simp only [List.length_cons]
            omega


/-! ## Idempotence of the normalizer -/

/-- An operator symbol's canonical identifier is not itself a key of the
operator table. -/
theorem methName_canonical {s m : String} (h : methName s = some m) :
    methName m = none := by
  unfold methName at h
  split at h <;> simp_all
  all_goals (subst h; rfl)

/-- Canonicalizing a name twice equals canonicalizing it once. -/
theorem canon_idem (s : String) : canon (canon s) = canon s := by
  cases h : methName s with
  | none => simp [canon, h]
  | some m =>
    have h2 := methName_canonical h
    simp [canon, h, h2]

theorem renameIdent_idem (n : Node) : renameIdent (renameIdent n) = renameIdent n := by
  cases n <;> simp [renameIdent, canon_idem]

mutual
theorem normN_idem (n : Node) : normN (normN n) = normN n := by
  cases n with
  | nil =>
    simp [normN]
  | Ident a =>
    simp [normN]
  | BasicLit a =>
    simp [normN]
  | ParenExpr x =>
    simp [normN, normN_idem x]
  | SelectorExpr x sel =>
    simp [normN, normN_idem x, normN_idem sel]
  | IndexExpr x idx =>
    simp [normN, normN_idem x, normL_idem idx]
  | CallExpr f args =>
    simp [normN, normN_idem f, normL_idem args]
  | BinaryExpr x op y =>
    simp [normN, normN_idem x, normN_idem y]
  | CompositeLit ty elts =>
    simp [normN, normN_idem ty, normL_idem elts]
  | Field names ty =>
    simp [normN, normL_idem names, normN_idem ty]
  | FieldList l =>
    simp [normN, normL_idem l]
  | StructType fields =>
    simp [normN, normN_idem fields]
  | FuncType params results =>
    simp [normN, normN_idem params, normN_idem results]
  | InterfaceType methods =>
    simp [normN, normIfaceMethods_idem methods]
  | ExprStmt x =>
    simp [normN, normN_idem x]
  | AssignStmt lhs rhs =>
    simp [normN, normL_idem lhs, normL_idem rhs]
  | BlockStmt l =>
    simp [normN, normL_idem l]
  | ReturnStmt results =>
    simp [normN, normL_idem results]
  | GenDecl specs =>
    simp [normN, normL_idem specs]
  | TypeSpec nm ty =>
    simp [normN, normN_idem nm, normN_idem ty]
  | FuncDecl recv nm ty body =>
    cases recv <;> simp [normN, renameIdent_idem]
  | File nm decls =>
    simp [normN, normN_idem nm, normL_idem decls]
theorem normL_idem (l : NodeList) : normL (normL l) = normL l := by
  cases l with
  | nil => simp [normL]
  | cons x xs => simp [normL, normN_idem x, normL_idem xs]
theorem normIfaceMethods_idem (m : Node) :
    normIfaceMethods (normIfaceMethods m) = normIfaceMethods m := by
  cases m with
  | FieldList l => simp [normIfaceMethods, normIfaceFields_idem l]
  | nil =>
    simp [normIfaceMethods, normN]
  | Ident a =>
    simp [normIfaceMethods, normN]
  | BasicLit a =>
    simp [normIfaceMethods, normN]
  | ParenExpr x =>
    simp [normIfaceMethods, normN, normN_idem x]
  | SelectorExpr x sel =>
    simp [normIfaceMethods, normN, normN_idem x, normN_idem sel]
  | IndexExpr x idx =>
    simp [normIfaceMethods, normN, normN_idem x, normL_idem idx]
  | CallExpr f args =>
    simp [normIfaceMethods, normN, normN_idem f, normL_idem args]
  | BinaryExpr x op y =>
    simp [normIfaceMethods, normN, normN_idem x, normN_idem y]
  | CompositeLit ty elts =>
    simp [normIfaceMethods, normN, normN_idem ty, normL_idem elts]
  | Field names ty =>
    simp [normIfaceMethods, normN, normL_idem names, normN_idem ty]
  | StructType fields =>
    simp [normIfaceMethods, normN, normN_idem fields]
  | FuncType params results =>
    simp [normIfaceMethods, normN, normN_idem params, normN_idem results]
  | InterfaceType methods =>
    simp [normIfaceMethods, normN, normIfaceMethods_idem methods]
  | ExprStmt x =>
    simp [normIfaceMethods, normN, normN_idem x]
  | AssignStmt lhs rhs =>
    simp [normIfaceMethods, normN, normL_idem lhs, normL_idem rhs]
  | BlockStmt l =>
    simp [normIfaceMethods, normN, normL_idem l]
  | ReturnStmt results =>
    simp [normIfaceMethods, normN, normL_idem results]
  | GenDecl specs =>
    simp [normIfaceMethods, normN, normL_idem specs]
  | TypeSpec nm ty =>
    simp [normIfaceMethods, normN, normN_idem nm, normN_idem ty]
  | FuncDecl recv nm ty body =>
    cases recv <;> simp [normIfaceMethods, normN, renameIdent_idem]
  | File nm decls =>
    simp [normIfaceMethods, normN, normN_idem nm, normL_idem decls]
theorem normIfaceFields_idem (l : NodeList) :
    normIfaceFields (normIfaceFields l) = normIfaceFields l := by
  cases l with
  | nil => simp [normIfaceFields]
  | cons f fs => simp [normIfaceFields, normIfaceField_idem f, normIfaceFields_idem fs]
theorem normIfaceField_idem (f : Node) :
    normIfaceField (normIfaceField f) = normIfaceField f := by
  cases f with
  | Field names ty => simp [normIfaceField, normIfaceNames_idem names, normN_idem ty]
  | nil =>
    simp [normIfaceField, normN]
  | Ident a =>
    simp [normIfaceField, normN]
  | BasicLit a =>
    simp [normIfaceField, normN]
  | ParenExpr x =>
    simp [normIfaceField, normN, normN_idem x]
  | SelectorExpr x sel =>
    simp [normIfaceField, normN, normN_idem x, normN_idem sel]
  | IndexExpr x idx =>
    simp [normIfaceField, normN, normN_idem x, normL_idem idx]
  | CallExpr f args =>
    simp [normIfaceField, normN, normN_idem f, normL_idem args]
  | BinaryExpr x op y =>
    simp [normIfaceField, normN, normN_idem x, normN_idem y]
  | CompositeLit ty elts =>
    simp [normIfaceField, normN, normN_idem ty, normL_idem elts]
  | FieldList l =>
    simp [normIfaceField, normN, normL_idem l]
  | StructType fields =>
    simp [normIfaceField, normN, normN_idem fields]
  | FuncType params results =>
    simp [normIfaceField, normN, normN_idem params, normN_idem results]
  | InterfaceType methods =>
    simp [normIfaceField, normN, normIfaceMethods_idem methods]
  | ExprStmt x =>
    simp [normIfaceField, normN, normN_idem x]
  | AssignStmt lhs rhs =>
    simp [normIfaceField, normN, normL_idem lhs, normL_idem rhs]
  | BlockStmt l =>
    simp [normIfaceField, normN, normL_idem l]
  | ReturnStmt results =>
    simp [normIfaceField, normN, normL_idem results]
  | GenDecl specs =>
    simp [normIfaceField, normN, normL_idem specs]
  | TypeSpec nm ty =>
    simp [normIfaceField, normN, normN_idem nm, normN_idem ty]
  | FuncDecl recv nm ty body =>
    cases recv <;> simp [normIfaceField, normN, renameIdent_idem]
  | File nm decls =>
    simp [normIfaceField, normN, normN_idem nm, normL_idem decls]
theorem normIfaceNames_idem (l : NodeList) :
    normIfaceNames (normIfaceNames l) = normIfaceNames l := by
  cases l with
  | nil => simp [normIfaceNames]
  | cons nm nms =>
    cases nm with
    | nil =>
      simp [normIfaceNames, normN, normIfaceNames_idem nms]
    | Ident a =>
      simp [normIfaceNames, canon_idem, normIfaceNames_idem nms]
    | BasicLit a =>
      simp [normIfaceNames, normN, normIfaceNames_idem nms]
    | ParenExpr x =>
      simp [normIfaceNames, normN, normN_idem x, normIfaceNames_idem nms]
    | SelectorExpr x sel =>
      simp [normIfaceNames, normN, normN_idem x, normN_idem sel, normIfaceNames_idem nms]
    | IndexExpr x idx =>
      simp [normIfaceNames, normN, normN_idem x, normL_idem idx, normIfaceNames_idem nms]
    | CallExpr f args =>
      simp [normIfaceNames, normN, normN_idem f, normL_idem args, normIfaceNames_idem nms]
    | BinaryExpr x op y =>
      simp [normIfaceNames, normN, normN_idem x, normN_idem y, normIfaceNames_idem nms]
    | CompositeLit ty elts =>
      simp [normIfaceNames, normN, normN_idem ty, normL_idem elts, normIfaceNames_idem nms]
    | Field names ty =>
      simp [normIfaceNames, normN, normL_idem names, normN_idem ty, normIfaceNames_idem nms]
    | FieldList l =>
      simp [normIfaceNames, normN, normL_idem l, normIfaceNames_idem nms]
    | StructType fields =>
      simp [normIfaceNames, normN, normN_idem fields, normIfaceNames_idem nms]
    | FuncType params results =>
      simp [normIfaceNames, normN, normN_idem params, normN_idem results, normIfaceNames_idem nms]
    | InterfaceType methods =>
      simp [normIfaceNames, normN, normIfaceMethods_idem methods, normIfaceNames_idem nms]
    | ExprStmt x =>
      simp [normIfaceNames, normN, normN_idem x, normIfaceNames_idem nms]
    | AssignStmt lhs rhs =>
      simp [normIfaceNames, normN, normL_idem lhs, normL_idem rhs, normIfaceNames_idem nms]
    | BlockStmt l =>
      simp [normIfaceNames, normN, normL_idem l, normIfaceNames_idem nms]
    | ReturnStmt results =>
      simp [normIfaceNames, normN, normL_idem results, normIfaceNames_idem nms]
    | GenDecl specs =>
      simp [normIfaceNames, normN, normL_idem specs, normIfaceNames_idem nms]
    | TypeSpec nm ty =>
      simp [normIfaceNames, normN, normN_idem nm, normN_idem ty, normIfaceNames_idem nms]
    | FuncDecl recv nm ty body =>
      cases recv <;> simp [normIfaceNames, normN, renameIdent_idem, normIfaceNames_idem nms]
    | File nm decls =>
      simp [normIfaceNames, normN, normN_idem nm, normL_idem decls, normIfaceNames_idem nms]
end


/-! ## The normalizer refines its specification -/

theorem allIdents_wfL {l : NodeList} (h : allIdents l = true) : wfL l = true := by
  match l with
  | .nil => simp [wfL]
  | .cons nm nms =>
    cases nm <;> simp [allIdents] at h <;> simp [wfL, wfN, allIdents_wfL h]

/-- On a list of identifiers, the rename-then-walk of the traversal is the
plain rename of the specification. -/
theorem allIdents_rename {l : NodeList} (h : allIdents l = true) :
    normIfaceNames l = mapRename l := by
  match l with
  | .nil => simp [normIfaceNames, mapRename]
  | .cons nm nms =>
    cases nm <;> simp [allIdents] at h <;>
      simp [normIfaceNames, mapRename, renameIdent, allIdents_rename h]

mutual
/-- On well-formed trees the normalizer pass equals the specification's
normalizer, whose definition only ever changes interface method names and
receiver-bound declaration names. -/
theorem normN_spec (n : Node) : wfN n = true → normN n = normSpecN n := by
  cases n with
  | nil =>
    intro h
    simp [normN, normSpecN]
  | Ident a =>
    intro h
    simp [normN, normSpecN]
  | BasicLit a =>
    intro h
    simp [normN, normSpecN]
  | ParenExpr x =>
    intro h
    simp only [wfN] at h
    simp [normN, normSpecN, normN_spec x h]
  | SelectorExpr x sel =>
    intro h
    simp only [wfN, Bool.and_eq_true] at h
    simp [normN, normSpecN, normN_spec x h.1, normN_spec sel h.2]
  | IndexExpr x idx =>
    intro h
    simp only [wfN, Bool.and_eq_true] at h
    simp [normN, normSpecN, normN_spec x h.1, normL_spec idx h.2]
  | CallExpr f args =>
    intro h
    simp only [wfN, Bool.and_eq_true] at h
    simp [normN, normSpecN, normN_spec f h.1, normL_spec args h.2]
  | BinaryExpr x op y =>
    intro h
    simp only [wfN, Bool.and_eq_true] at h
    simp [normN, normSpecN, normN_spec x h.1, normN_spec y h.2]
  | CompositeLit ty elts =>
    intro h
    simp only [wfN, Bool.and_eq_true] at h
    simp [normN, normSpecN, normN_spec ty h.1, normL_spec elts h.2]
  | Field names ty =>
    intro h
    simp only [wfN, Bool.and_eq_true] at h
    simp [normN, normSpecN, normL_spec names (allIdents_wfL h.1), normN_spec ty h.2]
  | FieldList l =>
    intro h
    simp only [wfN] at h
    simp [normN, normSpecN, normL_spec l h]
  | StructType fields =>
    intro h
    simp only [wfN] at h
    simp [normN, normSpecN, normN_spec fields h]
  | FuncType params results =>
    intro h
    simp only [wfN, Bool.and_eq_true] at h
    simp [normN, normSpecN, normN_spec params h.1, normN_spec results h.2]
  | InterfaceType methods =>
    intro h
    simp only [wfN] at h
    simp [normN, normSpecN, normIfaceMethods_spec methods h]
  | ExprStmt x =>
    intro h
    simp only [wfN] at h
    simp [normN, normSpecN, normN_spec x h]
  | AssignStmt lhs rhs =>
    intro h
    simp only [wfN, Bool.and_eq_true] at h
    simp [normN, normSpecN, normL_spec lhs h.1, normL_spec rhs h.2]
  | BlockStmt l =>
    intro h
    simp only [wfN] at h
    simp [normN, normSpecN, normL_spec l h]
  | ReturnStmt results =>
    intro h
    simp only [wfN] at h
    simp [normN, normSpecN, normL_spec results h]
  | GenDecl specs =>
    intro h
    simp only [wfN] at h
    simp [normN, normSpecN, normL_spec specs h]
  | TypeSpec nm ty =>
    intro h
    simp only [wfN, Bool.and_eq_true] at h
    simp [normN, normSpecN, normN_spec nm h.1, normN_spec ty h.2]
  | FuncDecl recv nm ty body =>
    intro h
    cases recv <;> simp [normN, normSpecN]
  | File nm decls =>
    intro h
    simp only [wfN, Bool.and_eq_true] at h
    simp [normN, normSpecN, normN_spec nm h.1, normL_spec decls h.2]
theorem normL_spec (l : NodeList) : wfL l = true → normL l = normSpecL l := by
  cases l with
  | nil => intro h; simp [normL, normSpecL]
  | cons x xs =>
    intro h
    simp only [wfL, Bool.and_eq_true] at h
    simp [normL, normSpecL, normN_spec x h.1, normL_spec xs h.2]
theorem normIfaceMethods_spec (m : Node) :
    wfN m = true → normIfaceMethods m = specMethods m := by
  cases m with
  | FieldList l =>
    intro h
    simp only [wfN] at h
    simp [normIfaceMethods, specMethods, normIfaceFields_spec l h]
  | nil =>
    intro h
    simp [normIfaceMethods, specMethods, normN, normSpecN]
  | Ident a =>
    intro h
    simp [normIfaceMethods, specMethods, normN, normSpecN]
  | BasicLit a =>
    intro h
    simp [normIfaceMethods, specMethods, normN, normSpecN]
  | ParenExpr x =>
    intro h
    simp only [wfN] at h
    simp [normIfaceMethods, specMethods, normN, normSpecN, normN_spec x h]
  | SelectorExpr x sel =>
    intro h
    simp only [wfN, Bool.and_eq_true] at h
    simp [normIfaceMethods, specMethods, normN, normSpecN, normN_spec x h.1, normN_spec sel h.2]
  | IndexExpr x idx =>
    intro h
    simp only [wfN, Bool.and_eq_true] at h
    simp [normIfaceMethods, specMethods, normN, normSpecN, normN_spec x h.1, normL_spec idx h.2]
  | CallExpr f args =>
    intro h
    simp only [wfN, Bool.and_eq_true] at h
    simp [normIfaceMethods, specMethods, normN, normSpecN, normN_spec f h.1, normL_spec args h.2]
  | BinaryExpr x op y =>
    intro h
    simp only [wfN, Bool.and_eq_true] at h
    simp [normIfaceMethods, specMethods, normN, normSpecN, normN_spec x h.1, normN_spec y h.2]
  | CompositeLit ty elts =>
    intro h
    simp only [wfN, Bool.and_eq_true] at h
    simp [normIfaceMethods, specMethods, normN, normSpecN, normN_spec ty h.1, normL_spec elts h.2]
  | Field names ty =>
    intro h
    simp only [wfN, Bool.and_eq_true] at h
    simp [normIfaceMethods, specMethods, normN, normSpecN, normL_spec names (allIdents_wfL h.1), normN_spec ty h.2]
  | StructType fields =>
    intro h
    simp only [wfN] at h
    simp [normIfaceMethods, specMethods, normN, normSpecN, normN_spec fields h]
  | FuncType params results =>
    intro h
    simp only [wfN, Bool.and_eq_true] at h
    simp [normIfaceMethods, specMethods, normN, normSpecN, normN_spec params h.1, normN_spec results h.2]
  | InterfaceType methods =>
    intro h
    simp only [wfN] at h
    simp [normIfaceMethods, specMethods, normN, normSpecN, normIfaceMethods_spec methods h]
  | ExprStmt x =>
    intro h
    simp only [wfN] at h
    simp [normIfaceMethods, specMethods, normN, normSpecN, normN_spec x h]
  | AssignStmt lhs rhs =>
    intro h
    simp only [wfN, Bool.and_eq_true] at h
    simp [normIfaceMethods, specMethods, normN, normSpecN, normL_spec lhs h.1, normL_spec rhs h.2]
  | BlockStmt l =>
    intro h
    simp only [wfN] at h
    simp [normIfaceMethods, specMethods, normN, normSpecN, normL_spec l h]
  | ReturnStmt results =>
    intro h
    simp only [wfN] at h
    simp [normIfaceMethods, specMethods, normN, normSpecN, normL_spec results h]
  | GenDecl specs =>
    intro h
    simp only [wfN] at h
    simp [normIfaceMethods, specMethods, normN, normSpecN, normL_spec specs h]
  | TypeSpec nm ty =>
    intro h
    simp only [wfN, Bool.and_eq_true] at h
    simp [normIfaceMethods, specMethods, normN, normSpecN, normN_spec nm h.1, normN_spec ty h.2]
  | FuncDecl recv nm ty body =>
    intro h
    cases recv <;> simp [normIfaceMethods, specMethods, normN, normSpecN]
  | File nm decls =>
    intro h
    simp only [wfN, Bool.and_eq_true] at h
    simp [normIfaceMethods, specMethods, normN, normSpecN, normN_spec nm h.1, normL_spec decls h.2]
theorem normIfaceFields_spec (l : NodeList) :
    wfL l = true → normIfaceFields l = specFieldL l := by
  cases l with
  | nil => intro h; simp [normIfaceFields, specFieldL]
  | cons f fs =>
    intro h
    simp only [wfL, Bool.and_eq_true] at h
    simp [normIfaceFields, specFieldL, normIfaceField_spec f h.1, normIfaceFields_spec fs h.2]
theorem normIfaceField_spec (f : Node) :
    wfN f = true → normIfaceField f = specField f := by
  cases f with
  | Field names ty =>
    intro h
    simp only [wfN, Bool.and_eq_true] at h
    simp [normIfaceField, specField, allIdents_rename h.1, normN_spec ty h.2]
  | nil =>
    intro h
    simp [normIfaceField, specField, normN, normSpecN]
  | Ident a =>
    intro h
    simp [normIfaceField, specField, normN, normSpecN]
  | BasicLit a =>
    intro h
    simp [normIfaceField, specField, normN, normSpecN]
  | ParenExpr x =>
    intro h
    simp only [wfN] at h
    simp [normIfaceField, specField, normN, normSpecN, normN_spec x h]
  | SelectorExpr x sel =>
    intro h
    simp only [wfN, Bool.and_eq_true] at h
    simp [normIfaceField, specField, normN, normSpecN, normN_spec x h.1, normN_spec sel h.2]
  | IndexExpr x idx =>
    intro h
    simp only [wfN, Bool.and_eq_true] at h
    simp [normIfaceField, specField, normN, normSpecN, normN_spec x h.1, normL_spec idx h.2]
  | CallExpr f args =>
    intro h
    simp only [wfN, Bool.and_eq_true] at h
    simp [normIfaceField, specField, normN, normSpecN, normN_spec f h.1, normL_spec args h.2]
  | BinaryExpr x op y =>
    intro h
    simp only [wfN, Bool.and_eq_true] at h
    simp [normIfaceField, specField, normN, normSpecN, normN_spec x h.1, normN_spec y h.2]
  | CompositeLit ty elts =>
    intro h
    simp only [wfN, Bool.and_eq_true] at h
    simp [normIfaceField, specField, normN, normSpecN, normN_spec ty h.1, normL_spec elts h.2]
  | FieldList l =>
    intro h
    simp only [wfN] at h
    simp [normIfaceField, specField, normN, normSpecN, normL_spec l h]
  | StructType fields =>
    intro h
    simp only [wfN] at h
    simp [normIfaceField, specField, normN, normSpecN, normN_spec fields h]
  | FuncType params results =>
    intro h
    simp only [wfN, Bool.and_eq_true] at h
    simp [normIfaceField, specField, normN, normSpecN, normN_spec params h.1, normN_spec results h.2]
  | InterfaceType methods =>
    intro h
    simp only [wfN] at h
    simp [normIfaceField, specField, normN, normSpecN, normIfaceMethods_spec methods h]
  | ExprStmt x =>
    intro h
    simp only [wfN] at h
    simp [normIfaceField, specField, normN, normSpecN, normN_spec x h]
  | AssignStmt lhs rhs =>
    intro h
    simp only [wfN, Bool.and_eq_true] at h
    simp [normIfaceField, specField, normN, normSpecN, normL_spec lhs h.1, normL_spec rhs h.2]
  | BlockStmt l =>
    intro h
    simp only [wfN] at h
    simp [normIfaceField, specField, normN, normSpecN, normL_spec l h]
  | ReturnStmt results =>
    intro h
    simp only [wfN] at h
    simp [normIfaceField, specField, normN, normSpecN, normL_spec results h]
  | GenDecl specs =>
    intro h
    simp only [wfN] at h
    simp [normIfaceField, specField, normN, normSpecN, normL_spec specs h]
  | TypeSpec nm ty =>
    intro h
    simp only [wfN, Bool.and_eq_true] at h
    simp [normIfaceField, specField, normN, normSpecN, normN_spec nm h.1, normN_spec ty h.2]
  | FuncDecl recv nm ty body =>
    intro h
    cases recv <;> simp [normIfaceField, specField, normN, normSpecN]
  | File nm decls =>
    intro h
    simp only [wfN, Bool.and_eq_true] at h
    simp [normIfaceField, specField, normN, normSpecN, normN_spec nm h.1, normL_spec decls h.2]
end

/-- The normalizer's effect on a function declaration: the `pre` callback
renames the declared name exactly when there is a receiver and returns false,
so the receiver, signature and body are returned verbatim. -/
theorem normN_funcDecl (recv nm ty body : Node) :
    normN (.FuncDecl recv nm ty body) =
      .FuncDecl recv (if recv = .nil then nm else renameIdent nm) ty body := by
  cases recv <;> simp [normN]


/-! ## Traces: the traversal is a state homomorphism on the log -/

mutual
/-- With the logging visitors, a traversal appends a trace that depends only
on the locator and the subtree, and leaves the subtree unchanged. -/
theorem logHomN (n : Node) : ∀ (parent : Node) (name : String) (index : Int),
    ∃ t, ∀ (s : List Ev),
      applyN (some logPre) (some logPost) s parent name index n = .ok (s ++ t) n := by
  cases n with
  | nil =>
    intro parent name index
    refine ⟨[.pre parent name index .nil] ++ [.post parent name index .nil], fun s => ?_⟩
    rw [applyN_nil]
    simp [callCb, logPre, logPost, applyPost, orSet, List.append_assoc]
  | Ident a =>
    intro parent name index
    refine ⟨[.pre parent name index (.Ident a)] ++ [.post parent name index (.Ident a)], fun s => ?_⟩
    rw [applyN_Ident]
    simp [callCb, logPre, logPost, applyPost, orSet, List.append_assoc]
  | BasicLit a =>
    intro parent name index
    refine ⟨[.pre parent name index (.BasicLit a)] ++ [.post parent name index (.BasicLit a)], fun s => ?_⟩
    rw [applyN_BasicLit]
    simp [callCb, logPre, logPost, applyPost, orSet, List.append_assoc]
  | ParenExpr x =>
    intro parent name index
    obtain ⟨t0, h0⟩ := logHomN x (.ParenExpr x) "X" (-1)
    refine ⟨[.pre parent name index (.ParenExpr x)] ++ t0 ++ [.post parent name index (.ParenExpr x)], fun s => ?_⟩
    rw [applyN_ParenExpr]
    simp [callCb, logPre, logPost, applyPost, orSet, List.append_assoc, h0]
  | SelectorExpr x sel =>
    intro parent name index
    obtain ⟨t0, h0⟩ := logHomN x (.SelectorExpr x sel) "X" (-1)
    obtain ⟨t1, h1⟩ := logHomN sel (.SelectorExpr x sel) "Sel" (-1)
    refine ⟨[.pre parent name index (.SelectorExpr x sel)] ++ t0 ++ t1 ++ [.post parent name index (.SelectorExpr x sel)], fun s => ?_⟩
    rw [applyN_SelectorExpr]
    simp [callCb, logPre, logPost, applyPost, orSet, List.append_assoc, h0, h1]
  | IndexExpr x idx =>
    intro parent name index
    obtain ⟨t0, h0⟩ := logHomN x (.IndexExpr x idx) "X" (-1)
    obtain ⟨t1, h1⟩ := logHomL idx (.IndexExpr x idx) "Index" 0
    refine ⟨[.pre parent name index (.IndexExpr x idx)] ++ t0 ++ t1 ++ [.post parent name index (.IndexExpr x idx)], fun s => ?_⟩
    rw [applyN_IndexExpr]
    simp [callCb, logPre, logPost, applyPost, orSet, List.append_assoc, h0, h1]
  | CallExpr f args =>
    intro parent name index
    obtain ⟨t0, h0⟩ := logHomN f (.CallExpr f args) "Fun" (-1)
    obtain ⟨t1, h1⟩ := logHomL args (.CallExpr f args) "Args" 0
    refine ⟨[.pre parent name index (.CallExpr f args)] ++ t0 ++ t1 ++ [.post parent name index (.CallExpr f args)], fun s => ?_⟩
    rw [applyN_CallExpr]
    simp [callCb, logPre, logPost, applyPost, orSet, List.append_assoc, h0, h1]
  | BinaryExpr x op y =>
    intro parent name index
    obtain ⟨t0, h0⟩ := logHomN x (.BinaryExpr x op y) "X" (-1)
    obtain ⟨t1, h1⟩ := logHomN y (.BinaryExpr x op y) "Y" (-1)
    refine ⟨[.pre parent name index (.BinaryExpr x op y)] ++ t0 ++ t1 ++ [.post parent name index (.BinaryExpr x op y)], fun s => ?_⟩
    rw [applyN_BinaryExpr]
    simp [callCb, logPre, logPost, applyPost, orSet, List.append_assoc, h0, h1]
  | CompositeLit ty elts =>
    intro parent name index
    obtain ⟨t0, h0⟩ := logHomN ty (.CompositeLit ty elts) "Type" (-1)
    obtain ⟨t1, h1⟩ := logHomL elts (.CompositeLit ty elts) "Elts" 0
    refine ⟨[.pre parent name index (.CompositeLit ty elts)] ++ t0 ++ t1 ++ [.post parent name index (.CompositeLit ty elts)], fun s => ?_⟩
    rw [applyN_CompositeLit]
    simp [callCb, logPre, logPost, applyPost, orSet, List.append_assoc, h0, h1]
  | Field names ty =>
    intro parent name index
    obtain ⟨t0, h0⟩ := logHomL names (.Field names ty) "Names" 0
    obtain ⟨t1, h1⟩ := logHomN ty (.Field names ty) "Type" (-1)
    refine ⟨[.pre parent name index (.Field names ty)] ++ t0 ++ t1 ++ [.post parent name index (.Field names ty)], fun s => ?_⟩
    rw [applyN_Field]
    simp [callCb, logPre, logPost, applyPost, orSet, List.append_assoc, h0, h1]
  | FieldList l =>
    intro parent name index
    obtain ⟨t0, h0⟩ := logHomL l (.FieldList l) "List" 0
    refine ⟨[.pre parent name index (.FieldList l)] ++ t0 ++ [.post parent name index (.FieldList l)], fun s => ?_⟩
    rw [applyN_FieldList]
    simp [callCb, logPre, logPost, applyPost, orSet, List.append_assoc, h0]
  | StructType fields =>
    intro parent name index
    obtain ⟨t0, h0⟩ := logHomN fields (.StructType fields) "Fields" (-1)
    refine ⟨[.pre parent name index (.StructType fields)] ++ t0 ++ [.post parent name index (.StructType fields)], fun s => ?_⟩
    rw [applyN_StructType]
    simp [callCb, logPre, logPost, applyPost, orSet, List.append_assoc, h0]
  | FuncType params results =>
    intro parent name index
    obtain ⟨t0, h0⟩ := logHomN params (.FuncType params results) "Params" (-1)
    obtain ⟨t1, h1⟩ := logHomN results (.FuncType params results) "Results" (-1)
    refine ⟨[.pre parent name index (.FuncType params results)] ++ t0 ++ t1 ++ [.post parent name index (.FuncType params results)], fun s => ?_⟩
    rw [applyN_FuncType]
    simp [callCb, logPre, logPost, applyPost, orSet, List.append_assoc, h0, h1]
  | InterfaceType methods =>
    intro parent name index
    obtain ⟨t0, h0⟩ := logHomN methods (.InterfaceType methods) "Methods" (-1)
    refine ⟨[.pre parent name index (.InterfaceType methods)] ++ t0 ++ [.post parent name index (.InterfaceType methods)], fun s => ?_⟩
    rw [applyN_InterfaceType]
    simp [callCb, logPre, logPost, applyPost, orSet, List.append_assoc, h0]
  | ExprStmt x =>
    intro parent name index
    obtain ⟨t0, h0⟩ := logHomN x (.ExprStmt x) "X" (-1)
    refine ⟨[.pre parent name index (.ExprStmt x)] ++ t0 ++ [.post parent name index (.ExprStmt x)], fun s => ?_⟩
    rw [applyN_ExprStmt]
    simp [callCb, logPre, logPost, applyPost, orSet, List.append_assoc, h0]
  | AssignStmt lhs rhs =>
    intro parent name index
    obtain ⟨t0, h0⟩ := logHomL lhs (.AssignStmt lhs rhs) "Lhs" 0
    obtain ⟨t1, h1⟩ := logHomL rhs (.AssignStmt lhs rhs) "Rhs" 0
    refine ⟨[.pre parent name index (.AssignStmt lhs rhs)] ++ t0 ++ t1 ++ [.post parent name index (.AssignStmt lhs rhs)], fun s => ?_⟩
    rw [applyN_AssignStmt]
    simp [callCb, logPre, logPost, applyPost, orSet, List.append_assoc, h0, h1]
  | BlockStmt l =>
    intro parent name index
    obtain ⟨t0, h0⟩ := logHomL l (.BlockStmt l) "List" 0
    refine ⟨[.pre parent name index (.BlockStmt l)] ++ t0 ++ [.post parent name index (.BlockStmt l)], fun s => ?_⟩
    rw [applyN_BlockStmt]
    simp [callCb, logPre, logPost, applyPost, orSet, List.append_assoc, h0]
  | ReturnStmt results =>
    intro parent name index
    obtain ⟨t0, h0⟩ := logHomL results (.ReturnStmt results) "Results" 0
    refine ⟨[.pre parent name index (.ReturnStmt results)] ++ t0 ++ [.post parent name index (.ReturnStmt results)], fun s => ?_⟩
    rw [applyN_ReturnStmt]
    simp [callCb, logPre, logPost, applyPost, orSet, List.append_assoc, h0]
  | GenDecl specs =>
    intro parent name index
    obtain ⟨t0, h0⟩ := logHomL specs (.GenDecl specs) "Specs" 0
    refine ⟨[.pre parent name index (.GenDecl specs)] ++ t0 ++ [.post parent name index (.GenDecl specs)], fun s => ?_⟩
    rw [applyN_GenDecl]
    simp [callCb, logPre, logPost, applyPost, orSet, List.append_assoc, h0]
  | TypeSpec nm ty =>
    intro parent name index
    obtain ⟨t0, h0⟩ := logHomN nm (.TypeSpec nm ty) "Name" (-1)
    obtain ⟨t1, h1⟩ := logHomN ty (.TypeSpec nm ty) "Type" (-1)
    refine ⟨[.pre parent name index (.TypeSpec nm ty)] ++ t0 ++ t1 ++ [.post parent name index (.TypeSpec nm ty)], fun s => ?_⟩
    rw [applyN_TypeSpec]
    simp [callCb, logPre, logPost, applyPost, orSet, List.append_assoc, h0, h1]
  | FuncDecl recv nm ty body =>
    intro parent name index
    obtain ⟨t0, h0⟩ := logHomN recv (.FuncDecl recv nm ty body) "Recv" (-1)
    obtain ⟨t1, h1⟩ := logHomN nm (.FuncDecl recv nm ty body) "Name" (-1)
    obtain ⟨t2, h2⟩ := logHomN ty (.FuncDecl recv nm ty body) "Type" (-1)
    obtain ⟨t3, h3⟩ := logHomN body (.FuncDecl recv nm ty body) "Body" (-1)
    refine ⟨[.pre parent name index (.FuncDecl recv nm ty body)] ++ t0 ++ t1 ++ t2 ++ t3 ++ [.post parent name index (.FuncDecl recv nm ty body)], fun s => ?_⟩
    rw [applyN_FuncDecl]
    simp [callCb, logPre, logPost, applyPost, orSet, List.append_assoc, h0, h1, h2, h3]
  | File nm decls =>
    intro parent name index
    obtain ⟨t0, h0⟩ := logHomN nm (.File nm decls) "Name" (-1)
    obtain ⟨t1, h1⟩ := logHomL decls (.File nm decls) "Decls" 0
    refine ⟨[.pre parent name index (.File nm decls)] ++ t0 ++ t1 ++ [.post parent name index (.File nm decls)], fun s => ?_⟩
    rw [applyN_File]
    simp [callCb, logPre, logPost, applyPost, orSet, List.append_assoc, h0, h1]
theorem logHomL (l : NodeList) : ∀ (parent : Node) (name : String) (index : Int),
    ∃ t, ∀ (s : List Ev),
      applyList (some logPre) (some logPost) s parent name index l = .ok (s ++ t) l := by
  cases l with
  | nil =>
    intro parent name index
    refine ⟨[], fun s => ?_⟩
    rw [applyList_nil]
    simp
  | cons x xs =>
    intro parent name index
    obtain ⟨tx, hx⟩ := logHomN x parent name index
    obtain ⟨ts, hs⟩ := logHomL xs parent name (index + 1)
    refine ⟨tx ++ ts, fun s => ?_⟩
    rw [applyList_cons]
    simp [hx, hs, List.append_assoc]
end

/-- The logging traversal from any starting log appends exactly the trace of
the subtree. -/
theorem logHom_traceN (n : Node) (parent : Node) (name : String) (index : Int) :
    ∀ s, applyN (some logPre) (some logPost) s parent name index n
      = .ok (s ++ traceN parent name index n) n := by
  obtain ⟨t, ht⟩ := logHomN n parent name index
  have h0 : traceN parent name index n = t := by
    unfold traceN
    rw [ht []]
    simp
  intro s
  rw [ht s, h0]

/-! ## Visitors used to exhibit the abort behaviour -/

/-- A `post` callback that immediately returns false (requests the abort). -/
def stopPost : Cb Unit := fun s _parent _name _index _n => .out s false none

/-- A `pre` callback that replaces the visited node via `SetField` and
continues. -/
def setfPre : Cb Unit := fun s _parent _name _index _n =>
  .out s true (some (.Ident "CHANGED"))

/-- A `pre` callback that panics with an ordinary fault. -/
def faultPre : Cb Unit := fun _ _parent _name _index _n => .fault "boom"

/-! ## Claim theorems -/

/-- Claim C4: running the operator-name normalizer pass twice on any tree
yields the same tree as running it once — after one run every rewritten name
is a canonical identifier (`ADD__`, `SUB__`, `MUL__`, `QUO__`, `REM__`,
`AT__`, `ATSET__`), none of which is a key of the operator table, so the
second run changes nothing. -/
theorem normalize_idempotent (t : Node) : normN (normN t) = normN t :=
  normN_idem t

/-- Claim C8, corrected: after the final tree is emitted, `main` passes the
combined output of the external `go run` step through unmodified, but it
discards the step's exit status (`out, _ := ...CombinedOutput()`) and always
exits with status 0 itself. -/
theorem go_run_passthrough_amended (step : ProcResult) :
    (mainTail step).out = step.out ∧ (mainTail step).exit = 0 :=
  ⟨rfl, rfl⟩

/-- Claim C8, counterexample to the claim as stated: for a build/run step
that exits with status 3, the program's own exit status is 0, not 3 — the
exit status is not passed through. -/
theorem go_run_passthrough_counterexample :
    ¬ (mainTail { out := "boom", exit := 3 } = { out := "boom", exit := 3 }) := by
  decide

/-- Claim C9: when a post callback returns false, `Apply` returns nil rather
than the (possibly modified) root: the abort is recovered in the deferred
handler, the normal `return a.Node` is skipped, and the zero-valued result is
returned.  Here the root was even replaced (by `setfPre`) before the abort —
the inner traversal carries the modified value — yet the caller receives
nil. -/
theorem abort_returns_nil :
    applyN (some setfPre) (some stopPost) () .nil "Node" (-1) (.Ident "x")
      = .abort () (.Ident "CHANGED") ∧
    Apply (some setfPre) (some stopPost) () (.Ident "x") = .ok () .nil ∧
    Node.Ident "CHANGED" ≠ Node.nil := by
  refine ⟨?_, ?_, by decide⟩
  · rw [applyN_Ident]
    simp [callCb, setfPre, stopPost, applyPost, orSet]
  · unfold Apply
    rw [applyN_Ident]
    simp [callCb, setfPre, stopPost, applyPost, orSet]

/-- Claim C10: the normalizer's pre callback returns false for every function
declaration, with or without a receiver, so no part of the declaration's
subtree is traversed — receiver, signature and body come back verbatim (its
declared name is canonicalized exactly when a receiver is present); and on
well-formed trees the whole pass coincides with the specification's
normalizer, which changes nothing except interface method-name identifiers
and receiver-bound declaration names. -/
theorem normalizer_skips_funcdecl :
    (∀ (recv nm ty body : Node),
      normN (.FuncDecl recv nm ty body) =
        .FuncDecl recv (if recv = .nil then nm else renameIdent nm) ty body) ∧
    (∀ t : Node, wfN t = true → normN t = normSpecN t) :=
  ⟨normN_funcDecl, fun t h => normN_spec t h⟩

/-- Claim C10 witness: the pass applied to a receiver-less function
declaration whose body contains an interface with an operator-symbol method
name leaves the whole declaration — that name included — untouched. -/
theorem normalizer_skips_funcdecl_witness :
    normN (.FuncDecl .nil (.Ident "main") (.FuncType .nil .nil)
        (.BlockStmt (.cons (.ExprStmt (.InterfaceType (.FieldList (.cons
          (.Field (.cons (.Ident "+") .nil) (.FuncType .nil .nil)) .nil)))) .nil)))
      = .FuncDecl .nil (.Ident "main") (.FuncType .nil .nil)
        (.BlockStmt (.cons (.ExprStmt (.InterfaceType (.FieldList (.cons
          (.Field (.cons (.Ident "+") .nil) (.FuncType .nil .nil)) .nil)))) .nil)) ∧
    wfN (.Ident "x") = true ∧ normN (.Ident "x") = normSpecN (.Ident "x") := by
  refine ⟨?_, ?_, normalizer_skips_funcdecl.2 (.Ident "x") (by simp [wfN])⟩
  · rw [normalizer_skips_funcdecl.1]
    simp
  · simp [wfN]

/-- Claim C7: if a post callback returns false during Apply, the traversal
aborts immediately — the abort unwinds to the `Apply` entry point, which
recovers it and returns normally (so the signal is never observable outside
that `Apply` call), no further node is visited (an abort inside a slice
element leaves the remaining elements untouched and unvisited), and any
other fault raised by a callback propagates to the caller unswallowed. -/
theorem abort_containment :
    (∀ (σ : Type) (pre post : Option (Cb σ)) (s : σ) (root : Node) (s1 : σ) (v : Node),
      applyN pre post s .nil "Node" (-1) root = .abort s1 v →
      Apply pre post s root = .ok s1 .nil) ∧
    (∀ (σ : Type) (pre post : Option (Cb σ)) (s : σ) (root : Node) (e : String),
      applyN pre post s .nil "Node" (-1) root = .fault e →
      Apply pre post s root = .fault e) ∧
    (∀ (σ : Type) (pre post : Option (Cb σ)) (s : σ) (parent : Node) (name : String)
        (index : Int) (x : Node) (xs : NodeList) (s1 : σ) (v : Node),
      applyN pre post s parent name index x = .abort s1 v →
      applyList pre post s parent name index (.cons x xs) = .abort s1 (.cons v xs)) := by
  refine ⟨?_, ?_, ?_⟩
  · intro σ pre post s root s1 v h
    unfold Apply
    rw [h]
  · intro σ pre post s root e h
    unfold Apply
    rw [h]
  · intro σ pre post s parent name index x xs s1 v h
    rw [applyList_cons, h]

/-- Claim C7 witness: a post callback that stops at the very first node
makes the inner traversal abort; `Apply` recovers it and returns nil; a
faulting callback's fault comes out of `Apply`; and an aborting first slice
element leaves the rest of the slice alone. -/
theorem abort_containment_witness :
    Apply (σ := Unit) none (some stopPost) () (.Ident "x") = .ok () .nil ∧
    Apply (σ := Unit) (some faultPre) none () (.Ident "x") = .fault "boom" ∧
    applyList (σ := Unit) none (some stopPost) () .nil "List" 0
        (.cons (.Ident "x") (.cons (.Ident "y") .nil))
      = .abort () (.cons (.Ident "x") (.cons (.Ident "y") .nil)) := by
  refine ⟨abort_containment.1 Unit none (some stopPost) () (.Ident "x") () (.Ident "x") ?_,
    abort_containment.2.1 Unit (some faultPre) none () (.Ident "x") "boom" ?_,
    abort_containment.2.2 Unit none (some stopPost) () .nil "List" 0
      (.Ident "x") (.cons (.Ident "y") .nil) () (.Ident "x") ?_⟩
  · rw [applyN_Ident]
    simp [callCb, stopPost, applyPost, orSet]
  · rw [applyN_Ident]
    simp [callCb, faultPre]
  · rw [applyN_Ident]
    simp [callCb, stopPost, applyPost, orSet]

/-- Claim C1, amended: for every finite input tree and every behaviour of
the external resolver, the fixed-point desugaring loop terminates after at
most N + 1 rewrite sweeps, where N is the number of operator-expression
nodes (index expressions, index-write assignments, binary-operator
expressions) in the tree; every sweep that is followed by another sweep
performed at least one rewrite.  (The claim's bound of N sweeps is off by
one: the final, non-progressing sweep is also a sweep.) -/
theorem loop_termination_bound {T : Type} (R : Resolver T) (t : Node) (fuel : Nat)
    (hf : claimCount t + 2 ≤ fuel) :
    mogoLoop R fuel true t = mogoLoop R (claimCount t + 2) true t ∧
    ((mogoLoop R fuel true t).2).length ≤ claimCount t + 1 ∧
    (∀ i, i + 1 < ((mogoLoop R fuel true t).2).length →
      ((mogoLoop R fuel true t).2).getD i false = true) := by
  have hge := claimCount_ge t
  have hb := mogoLoop_bound R (claimCount t) t hge fuel hf
  exact ⟨hb.1, le_trans hb.2 (by omega), fun i hi => mogoLoop_flags R fuel true t i hi⟩

/-- Claim C1 witness: on the `a + b + a + b` fixture (three operator nodes)
with the modelled resolver, fuel `claimCount + 2` is enough and the loop runs
at most four sweeps, all but the last progressing. -/
theorem loop_termination_bound_witness :
    claimCount chain0 + 2 ≤ 9 ∧
    (mogoLoop pointResolver 9 true chain0 = mogoLoop pointResolver (claimCount chain0 + 2) true chain0 ∧
      ((mogoLoop pointResolver 9 true chain0).2).length ≤ claimCount chain0 + 1 ∧
      (∀ i, i + 1 < ((mogoLoop pointResolver 9 true chain0).2).length →
        ((mogoLoop pointResolver 9 true chain0).2).getD i false = true)) :=
  ⟨by decide, loop_termination_bound pointResolver chain0 9 (by decide)⟩

/-- Claim C1, counterexample to the bound as stated: a tree with zero
operator-expression nodes on which type resolution keeps failing still gets
one (vacuous) sweep, exceeding the claimed bound of N = 0 sweeps. -/
theorem loop_sweep_bound_counterexample :
    ¬ (((mogoLoop trivialResolver 5 true (Node.Ident "x")).2).length ≤
        claimCount (Node.Ident "x")) := by
  decide

/-- Claim C2: for `a + b + a + b` (left-associative), with the modelled
resolver for the `Point` fixture, each sweep resolves exactly one nesting
level — innermost first, because only subexpressions present at the last
resolve carry a type binding — and after three sweeps the loop stops with
`((a.ADD__(b)).ADD__(a)).ADD__(b)`. -/
theorem chain_resolution :
    sweepStep pointResolver chain0 = .ok true chain1 ∧
    sweepStep pointResolver chain1 = .ok true chain2 ∧
    sweepStep pointResolver chain2 = .ok true chain3 ∧
    mogoLoop pointResolver 10 true chain0 = (chain3, [true, true, true]) ∧
    chain3 = addCall (addCall (addCall aN bN) aN) bN := by
  refine ⟨?_, ?_, ?_, ?_, rfl⟩ <;> decide

/-- Claim C3: a single-target, single-source assignment `recv[idx...] = v`
whose receiver type has the `[]=` method is rewritten (in the pre pass) to a
call of the `ATSET__` method with the index expressions followed by the
assigned value — two arguments for `recv[i] = v`; a standalone index
expression `recv[idx...]` whose receiver type has the `[]` method is
rewritten (in the post pass) to a call of the `AT__` method with only the
index expressions — one argument for `recv[i]`; and because the element-write
rule runs in the pre pass, a full sweep over such an assignment commits the
`ATSET__` form even when the element-read rule also matches the index
expression on its left-hand side: the two rewrites are never confused. -/
theorem element_rw_shapes :
    (∀ (T : Type) (lookup : Option T → String → Bool) (tmap : Node → Option T)
        (s : Bool) (parent : Node) (name : String) (index : Int)
        (x : Node) (idx : NodeList) (v : Node),
      lookup (tmap x) "ATSET__" = true →
      sweepPre lookup tmap s parent name index
          (.AssignStmt (.cons (.IndexExpr x idx) .nil) (.cons v .nil))
        = .out true true (some (.ExprStmt (.CallExpr (.SelectorExpr x (.Ident "ATSET__"))
            (idx.append (.cons v .nil)))))) ∧
    (∀ (T : Type) (lookup : Option T → String → Bool) (tmap : Node → Option T)
        (s : Bool) (parent : Node) (name : String) (index : Int)
        (x : Node) (idx : NodeList),
      lookup (tmap x) "AT__" = true →
      sweepPost lookup tmap s parent name index (.IndexExpr x idx)
        = .out true true (some (.CallExpr (.SelectorExpr x (.Ident "AT__")) idx))) ∧
    (∀ (T : Type) (lookup : Option T → String → Bool) (tmap : Node → Option T)
        (s : Bool) (parent : Node) (name : String) (index : Int)
        (x i v : Node),
      lookup (tmap x) "ATSET__" = true →
      ∃ s2, applyN (some (sweepPre lookup tmap)) (some (sweepPost lookup tmap)) s
          parent name index
          (.AssignStmt (.cons (.IndexExpr x (.cons i .nil)) .nil) (.cons v .nil))
        = .ok s2 (.ExprStmt (.CallExpr (.SelectorExpr x (.Ident "ATSET__"))
            (.cons i (.cons v .nil))))) := by
  have hm1 : methName "[]=" = some "ATSET__" := rfl
  have hm2 : methName "[]" = some "AT__" := rfl
  refine ⟨?_, ?_, ?_⟩
  · intro T lookup tmap s parent name index x idx v h
    simp [sweepPre, rewriteOp, hm1, h]
  · intro T lookup tmap s parent name index x idx h
    simp [sweepPost, rewriteOp, hm2, h]
  · intro T lookup tmap s parent name index x i v h
    have hpre : sweepPre lookup tmap s parent name index
        (.AssignStmt (.cons (.IndexExpr x (.cons i .nil)) .nil) (.cons v .nil))
      = .out true true (some (.ExprStmt (.CallExpr (.SelectorExpr x (.Ident "ATSET__"))
          (.cons i (.cons v .nil))))) := by
      simp [sweepPre, rewriteOp, hm1, h, NodeList.append]
    obtain ⟨s2, lhs1, hl, okl, hlen1⟩ := sweepAuxL lookup tmap
      (.cons (.IndexExpr x (.cons i .nil)) .nil) true
      (.AssignStmt (.cons (.IndexExpr x (.cons i .nil)) .nil) (.cons v .nil)) "Lhs" 0
    obtain ⟨s3, rhs1, hr2, okr, hlen2⟩ := sweepAuxL lookup tmap (.cons v .nil) s2
      (.AssignStmt (.cons (.IndexExpr x (.cons i .nil)) .nil) (.cons v .nil)) "Rhs" 0
    refine ⟨s3, ?_⟩
    rw [applyN_AssignStmt]
    simp [callCb, hpre, hl, hr2, applyPost, sweepPost, orSet]

/-- Claim C3 witness: with a resolver on whose receiver type both element
methods exist, `v[i] = w` becomes `v.ATSET__(i, w)` (two arguments), `v[i]`
alone becomes `v.AT__(i)` (one argument), and the full sweep over the
assignment commits the `ATSET__` call. -/
theorem element_rw_shapes_witness :
    sweepPre (T := Unit) (fun _ _ => true) (fun _ => none) false .nil "Node" (-1)
        (.AssignStmt (.cons (.IndexExpr (.Ident "v") (.cons (.Ident "i") .nil)) .nil)
          (.cons (.Ident "w") .nil))
      = .out true true (some (.ExprStmt (.CallExpr
          (.SelectorExpr (.Ident "v") (.Ident "ATSET__"))
          (.cons (.Ident "i") (.cons (.Ident "w") .nil))))) ∧
    sweepPost (T := Unit) (fun _ _ => true) (fun _ => none) false .nil "Node" (-1)
        (.IndexExpr (.Ident "v") (.cons (.Ident "i") .nil))
      = .out true true (some (.CallExpr (.SelectorExpr (.Ident "v") (.Ident "AT__"))
          (.cons (.Ident "i") .nil))) ∧
    (∃ s2, applyN (σ := Bool)
        (some (sweepPre (T := Unit) (fun _ _ => true) (fun _ => none)))
        (some (sweepPost (T := Unit) (fun _ _ => true) (fun _ => none))) false .nil "Node" (-1)
        (.AssignStmt (.cons (.IndexExpr (.Ident "v") (.cons (.Ident "i") .nil)) .nil)
          (.cons (.Ident "w") .nil))
      = .ok s2 (.ExprStmt (.CallExpr (.SelectorExpr (.Ident "v") (.Ident "ATSET__"))
          (.cons (.Ident "i") (.cons (.Ident "w") .nil))))) := by
  have h1 := element_rw_shapes.1 Unit (fun _ _ => true) (fun _ => none) false .nil "Node" (-1)
    (.Ident "v") (.cons (.Ident "i") .nil) (.Ident "w") (by decide)
  have h2 := element_rw_shapes.2.1 Unit (fun _ _ => true) (fun _ => none) false .nil "Node" (-1)
    (.Ident "v") (.cons (.Ident "i") .nil) (by decide)
  have h3 := element_rw_shapes.2.2 Unit (fun _ _ => true) (fun _ => none) false .nil "Node" (-1)
    (.Ident "v") (.Ident "i") (.Ident "w") (by decide)
  exact ⟨by simpa [NodeList.append] using h1, h2, h3⟩

/-- Claim C5: an assignment statement with more than one target or more than
one source is never touched by the element-write rewrite rule: the sweep's
pre callback returns true without committing any replacement or progress,
and a full sweep commits the node still as an assignment statement with the
same number of targets and sources. -/
theorem multi_assign_untouched :
    ∀ (T : Type) (lookup : Option T → String → Bool) (tmap : Node → Option T)
      (s : Bool) (parent : Node) (name : String) (index : Int)
      (lhs rhs : NodeList),
    lhs.length ≠ 1 ∨ rhs.length ≠ 1 →
    sweepPre lookup tmap s parent name index (.AssignStmt lhs rhs) = .out s true none ∧
    ∃ s2 lhs1 rhs1,
      applyN (some (sweepPre lookup tmap)) (some (sweepPost lookup tmap)) s
          parent name index (.AssignStmt lhs rhs)
        = .ok s2 (.AssignStmt lhs1 rhs1) ∧
      lhs1.length = lhs.length ∧ rhs1.length = rhs.length := by
  intro T lookup tmap s parent name index lhs rhs hlen
  have hpre : sweepPre lookup tmap s parent name index (.AssignStmt lhs rhs)
      = .out s true none := by
    rcases sweepPre_out lookup tmap s parent name index (.AssignStmt lhs rhs) with
      h | ⟨lx, lidx, rhs0, r, heq, _, _⟩
    · exact h
    · injection heq with h1 h2
      subst h1; subst h2
      simp [NodeList.length] at hlen
  refine ⟨hpre, ?_⟩
  obtain ⟨s2, lhs1, hl, okl, hlen1⟩ := sweepAuxL lookup tmap lhs s
    (.AssignStmt lhs rhs) "Lhs" 0
  obtain ⟨s3, rhs1, hr2, okr, hlen2⟩ := sweepAuxL lookup tmap rhs s2
    (.AssignStmt lhs rhs) "Rhs" 0
  refine ⟨s3, lhs1, rhs1, ?_, hlen1, hlen2⟩
  rw [applyN_AssignStmt]
  simp [callCb, hpre, hl, hr2, applyPost, sweepPost, orSet]

/-- Claim C5 witness: `a, b = x[i], y` — two targets — is untouched by the
element-write rule even though every method lookup succeeds. -/
theorem multi_assign_untouched_witness :
    (NodeList.length (.cons aN (.cons bN .nil)) ≠ 1 ∨
      NodeList.length (.cons (.IndexExpr (.Ident "x") (.cons (.Ident "i") .nil))
        (.cons (.Ident "y") .nil)) ≠ 1) ∧
    (sweepPre (T := Unit) (fun _ _ => true) (fun _ => none) false .nil "Node" (-1)
        (.AssignStmt (.cons aN (.cons bN .nil))
          (.cons (.IndexExpr (.Ident "x") (.cons (.Ident "i") .nil)) (.cons (.Ident "y") .nil)))
      = .out false true none ∧
    ∃ s2 lhs1 rhs1,
      applyN (σ := Bool) (some (sweepPre (T := Unit) (fun _ _ => true) (fun _ => none)))
          (some (sweepPost (T := Unit) (fun _ _ => true) (fun _ => none))) false .nil "Node" (-1)
          (.AssignStmt (.cons aN (.cons bN .nil))
            (.cons (.IndexExpr (.Ident "x") (.cons (.Ident "i") .nil)) (.cons (.Ident "y") .nil)))
        = .ok s2 (.AssignStmt lhs1 rhs1) ∧
      lhs1.length = NodeList.length (.cons aN (.cons bN .nil)) ∧
      rhs1.length = NodeList.length (.cons (.IndexExpr (.Ident "x") (.cons (.Ident "i") .nil))
        (.cons (.Ident "y") .nil))) :=
  ⟨by decide,
   multi_assign_untouched Unit (fun _ _ => true) (fun _ => none) false .nil "Node" (-1)
     (.cons aN (.cons bN .nil))
     (.cons (.IndexExpr (.Ident "x") (.cons (.Ident "i") .nil)) (.cons (.Ident "y") .nil))
     (by decide)⟩

/-- Claim C6: in one `Apply` traversal of a binary expression the left
operand's subtree is visited completely before the right operand's subtree —
the visit trace is the parent's pre event, then the whole trace of `X`, then
the whole trace of `Y`, then the parent's post event, children in slot
order — and any rewrite of the left operand is committed first: with the
desugaring visitors, traversing the right operand starts from the state the
left traversal produced, and the node the parent's post callback acts on
already carries the left operand's committed value. -/
theorem traversal_order :
    (∀ (parent x y : Node) (op name : String) (index : Int),
      traceN parent name index (.BinaryExpr x op y) =
        [Ev.pre parent name index (.BinaryExpr x op y)] ++
        traceN (.BinaryExpr x op y) "X" (-1) x ++
        traceN (.BinaryExpr x op y) "Y" (-1) y ++
        [Ev.post parent name index (.BinaryExpr x op y)]) ∧
    (∀ (T : Type) (lookup : Option T → String → Bool) (tmap : Node → Option T)
        (s : Bool) (parent : Node) (name : String) (index : Int)
        (x : Node) (op : String) (y : Node),
      ∃ sx x1 sy y1 sf v,
        applyN (some (sweepPre lookup tmap)) (some (sweepPost lookup tmap)) s
          (.BinaryExpr x op y) "X" (-1) x = .ok sx x1 ∧
        applyN (some (sweepPre lookup tmap)) (some (sweepPost lookup tmap)) sx
          (.BinaryExpr x op y) "Y" (-1) y = .ok sy y1 ∧
        applyN (some (sweepPre lookup tmap)) (some (sweepPost lookup tmap)) s
          parent name index (.BinaryExpr x op y) = .ok sf v ∧
        (v = .BinaryExpr x1 op y1 ∨
          ∃ m, v = .CallExpr (.SelectorExpr x1 (.Ident m)) (.cons y1 .nil))) := by
  constructor
  · intro parent x y op name index
    obtain ⟨tx, hx⟩ := logHomN x (.BinaryExpr x op y) "X" (-1)
    obtain ⟨ty, hy⟩ := logHomN y (.BinaryExpr x op y) "Y" (-1)
    have hxt : traceN (.BinaryExpr x op y) "X" (-1) x = tx := by
      unfold traceN
      rw [hx []]
      simp
    have hyt : traceN (.BinaryExpr x op y) "Y" (-1) y = ty := by
      unfold traceN
      rw [hy []]
      simp
    have hmain : applyN (some logPre) (some logPost) [] parent name index
        (.BinaryExpr x op y) =
        .ok ([Ev.pre parent name index (.BinaryExpr x op y)] ++ tx ++ ty ++
          [Ev.post parent name index (.BinaryExpr x op y)]) (.BinaryExpr x op y) := by
      rw [applyN_BinaryExpr]
      simp [callCb, logPre, logPost, applyPost, orSet, hx, hy, List.append_assoc]
    rw [hxt, hyt]
    unfold traceN
    rw [hmain]
  · intro T lookup tmap s parent name index x op y
    obtain ⟨sx, x1, hx, okx⟩ := sweepAuxN lookup tmap x s (.BinaryExpr x op y) "X" (-1)
    obtain ⟨sy, y1, hy, oky⟩ := sweepAuxN lookup tmap y sx (.BinaryExpr x op y) "Y" (-1)
    rcases hr : rewriteOp lookup tmap x1 op (.cons y1 .nil) with _ | c
    · refine ⟨sx, x1, sy, y1, sy, .BinaryExpr x1 op y1, hx, hy, ?_, Or.inl rfl⟩
      rw [applyN_BinaryExpr]
      simp [callCb, sweepPre, hx, hy, applyPost, sweepPost, hr, orSet]
    · obtain ⟨m, rfl⟩ := rewriteOp_some hr
      refine ⟨sx, x1, sy, y1, true,
        .CallExpr (.SelectorExpr x1 (.Ident m)) (.cons y1 .nil), hx, hy, ?_,
        Or.inr ⟨m, rfl⟩⟩
      rw [applyN_BinaryExpr]
      simp [callCb, sweepPre, hx, hy, applyPost, sweepPost, hr, orSet]
